import Mathlib

/-!
# Verification of bankshot's port-forwarding core

A shallow embedding, in Lean 4, of the parts of the bankshot repository
(github.com/phinze/bankshot) that its design specification makes claims
about:

* the policy filter `ShouldForwardPort` (pkg/monitor/session.go),
* the supervisor-side one-shot reconcile plan (`Monitor.Reconcile`),
* the workstation forward manager (`AddForward` / `RemoveForward` /
  registry keys, pkg/forwarder/forwarder.go),
* the session monitor's event handling, pending-removal grace machinery
  (pkg/monitor/session.go),
* the `/proc/net/tcp{,6}` hex address decoder (`parseHexAddr`),
* the daemon's per-connection frame handling (pkg/daemon/daemon.go).

Go maps are modelled as association lists (membership/lookup faithful to
map semantics), machine ints that hold ports or byte values as `Nat`
(these are non-negative throughout the sources), wall-clock instants as
`Nat`, and side effects (ssh subprocesses, RPCs) as explicit lists of
emitted commands/actions returned alongside the new state.  Outcomes of
external calls (ssh exit status, daemon RPC success, `GetListeningPorts`
snapshots) enter as explicit parameters.
-/

namespace Bankshot

/-! ## Association-list maps (model of Go `map`) -/

/-- Lookup in an association list; models reading a Go map. -/
def lookup? {α β : Type} [DecidableEq α] : List (α × β) → α → Option β
  | [], _ => none
  | (k, v) :: rest, k' => if k = k' then some v else lookup? rest k'

/-- Remove every binding of key `k`; models Go `delete(m, k)`. -/
def eraseKV {α β : Type} [DecidableEq α] : List (α × β) → α → List (α × β)
  | [], _ => []
  | kv :: rest, k => if kv.1 = k then eraseKV rest k else kv :: eraseKV rest k

/-- Insert or overwrite the binding of key `k`; models Go `m[k] = v`. -/
def insertKV {α β : Type} [DecidableEq α] (m : List (α × β)) (k : α) (v : β) : List (α × β) :=
  (k, v) :: eraseKV m k

theorem lookup?_insert_self {α β : Type} [DecidableEq α] (m : List (α × β)) (k : α) (v : β) :
    lookup? (insertKV m k v) k = some v := by
  simp [insertKV, lookup?]

theorem lookup?_erase_ne {α β : Type} [DecidableEq α] (m : List (α × β)) {k k' : α}
    (h : k ≠ k') : lookup? (eraseKV m k) k' = lookup? m k' := by
  induction m with
  | nil => rfl
  | cons kv rest ih =>
    obtain ⟨a, b⟩ := kv
    by_cases ha : a = k
    · subst ha
      have ha' : a ≠ k' := h
      simp [eraseKV, lookup?, ha', ih]
    · by_cases ha' : a = k'
      · subst ha'
        have hk : ¬(a = k) := ha
        simp [eraseKV, lookup?, hk]
      · simp [eraseKV, lookup?, ha, ha', ih]

theorem lookup?_insert_ne {α β : Type} [DecidableEq α] (m : List (α × β)) (k k' : α) (v : β)
    (h : k ≠ k') : lookup? (insertKV m k v) k' = lookup? m k' := by
  simp only [insertKV, lookup?, if_neg h]
  exact lookup?_erase_ne m h

theorem lookup?_erase_self {α β : Type} [DecidableEq α] (m : List (α × β)) (k : α) :
    lookup? (eraseKV m k) k = none := by
  induction m with
  | nil => rfl
  | cons kv rest ih =>
    obtain ⟨a, b⟩ := kv
    by_cases ha : a = k
    · simp [eraseKV, ha, ih]
    · simp [eraseKV, lookup?, ha, ih]

theorem mem_eraseKV {α β : Type} [DecidableEq α] (m : List (α × β)) (k p : α) (t : β) :
    (p, t) ∈ eraseKV m k ↔ (p, t) ∈ m ∧ p ≠ k := by
  induction m with
  | nil => simp [eraseKV]
  | cons kv rest ih =>
    obtain ⟨a, b⟩ := kv
    by_cases ha : a = k
    · rw [show eraseKV ((a, b) :: rest) k = eraseKV rest k by simp [eraseKV, ha]]
      simp only [ih, List.mem_cons, Prod.mk.injEq]
      constructor
      · rintro ⟨hm, hp⟩
        exact ⟨Or.inr hm, hp⟩
      · rintro ⟨⟨rfl, rfl⟩ | hm, hp⟩
        · exact absurd ha hp
        · exact ⟨hm, hp⟩
    · rw [show eraseKV ((a, b) :: rest) k = (a, b) :: eraseKV rest k by simp [eraseKV, ha]]
      simp only [List.mem_cons, Prod.mk.injEq, ih]
      constructor
      · rintro (⟨rfl, rfl⟩ | ⟨hm, hp⟩)
        · exact ⟨Or.inl ⟨rfl, rfl⟩, ha⟩
        · exact ⟨Or.inr hm, hp⟩
      · rintro ⟨⟨rfl, rfl⟩ | hm, hp⟩
        · exact Or.inl ⟨rfl, rfl⟩
        · exact Or.inr ⟨hm, hp⟩

theorem mem_insertKV {α β : Type} [DecidableEq α] (m : List (α × β)) (k p : α) (v t : β) :
    (p, t) ∈ insertKV m k v ↔ (p = k ∧ t = v) ∨ ((p, t) ∈ m ∧ p ≠ k) := by
  simp only [insertKV, List.mem_cons, Prod.mk.injEq, mem_eraseKV]

theorem lookup?_eq_none_iff {α β : Type} [DecidableEq α] (m : List (α × β)) (k : α) :
    lookup? m k = none ↔ ∀ t, (k, t) ∉ m := by
  induction m with
  | nil => simp [lookup?]
  | cons kv rest ih =>
    obtain ⟨a, b⟩ := kv
    by_cases ha : a = k
    · subst ha
      constructor
      · intro h
        simp [lookup?] at h
      · intro h
        exact absurd (List.mem_cons_self (a, b) rest) (h b)
    · simp only [lookup?, if_neg ha, List.mem_cons, Prod.mk.injEq, ih]
      constructor
      · rintro h t (⟨rfl, rfl⟩ | hm)
        · exact ha rfl
        · exact h t hm
      · intro h t hm
        exact h t (Or.inr hm)

theorem lookup?_isSome_of_mem {α β : Type} [DecidableEq α] {m : List (α × β)} {k : α} {t : β}
    (h : (k, t) ∈ m) : (lookup? m k).isSome := by
  cases hl : lookup? m k with
  | some v => rfl
  | none => exact absurd h ((lookup?_eq_none_iff m k).1 hl t)

/-! ## Policy filter — pkg/monitor/session.go, `ShouldForwardPort`

Go: ports are `int` but always non-negative (parsed from `/proc/net/tcp`
hex or JSON payloads), so `Nat` is used.  Go's `ignorePorts` is a
`map[int]bool`; a `List Nat` with `contains` models its membership test. -/

/-- A `{start, end}` port range (Go `monitor.PortRange`; the Go field
`End` is called `stop` here because `end` is a Lean keyword). -/
structure PortRange where
  start : Nat
  stop : Nat
  deriving DecidableEq, Repr

/-- Embedding of `ShouldForwardPort(port, portRanges, ignorePorts)` from
pkg/monitor/session.go: ignored ports are rejected first; with any
configured ranges the port must fall in one of them; otherwise all
ports ≥ 1024 pass. -/
def ShouldForwardPort (port : Nat) (portRanges : List PortRange) (ignorePorts : List Nat) :
    Bool :=
  if ignorePorts.contains port then false
  else if portRanges.length > 0 then
    portRanges.any (fun r => decide (r.start ≤ port) && decide (port ≤ r.stop))
  else
    decide (1024 ≤ port)

/-- The spec's `forward?` predicate, port-based part (§4.7.1):
`port ∉ ignore_ports ∧ (port_ranges empty → port ≥ 1024; else ∃ range
containing port)`.  Written from the spec's words, to be compared with
the embedded `ShouldForwardPort`. -/
def specPortPolicy (port : Nat) (portRanges : List PortRange) (ignorePorts : List Nat) :
    Prop :=
  port ∉ ignorePorts ∧
    (if portRanges = [] then 1024 ≤ port
     else ∃ r ∈ portRanges, r.start ≤ port ∧ port ≤ r.stop)

/-- C7: The port-based policy filter agrees with the spec predicate for
every port and configuration; `ignore_ports` beats `port_ranges`; with
empty ranges exactly the ports ≥ 1024 pass (1023 rejected, 1024
accepted); with ranges `[{3000, 9999}]` port 5000 is accepted and
37593 rejected. -/
theorem shouldForwardPort_correct (port : Nat) (portRanges : List PortRange)
    (ignorePorts : List Nat) :
    (ShouldForwardPort port portRanges ignorePorts = true ↔
      specPortPolicy port portRanges ignorePorts) ∧
    (port ∈ ignorePorts → ShouldForwardPort port portRanges ignorePorts = false) ∧
    ShouldForwardPort 1023 [] [] = false ∧
    ShouldForwardPort 1024 [] [] = true ∧
    ShouldForwardPort 5000 [⟨3000, 9999⟩] [] = true ∧
    ShouldForwardPort 37593 [⟨3000, 9999⟩] [] = false ∧
    ShouldForwardPort 5000 [⟨3000, 9999⟩] [5000] = false := by
  refine ⟨?_, ?_, by decide, by decide, by decide, by decide, by decide⟩
  · unfold ShouldForwardPort specPortPolicy
    by_cases hi : ignorePorts.contains port = true
    · have hmem : port ∈ ignorePorts := List.elem_iff.mp hi
      simp only [hi, if_pos]
      constructor
      · intro hfalse
        exact absurd hfalse (by simp)
      · rintro ⟨hnot, -⟩
        exact absurd hmem hnot
    · have hnotmem : port ∉ ignorePorts := fun h => hi (List.elem_iff.mpr h)
      simp only [Bool.not_eq_true] at hi
      cases portRanges with
      | nil => simp [ShouldForwardPort, hi, hnotmem]
      | cons r rs =>
        simp only [hi, Bool.false_eq_true, if_false, List.length_cons,
          if_pos (Nat.succ_pos rs.length), List.any_eq_true, Bool.and_eq_true,
          decide_eq_true_eq, if_neg (List.cons_ne_nil r rs)]
        constructor
        · rintro ⟨x, hx, h1, h2⟩
          exact ⟨hnotmem, ⟨x, hx, h1, h2⟩⟩
        · rintro ⟨-, x, hx, h1, h2⟩
          exact ⟨x, hx, h1, h2⟩
  · intro hmem
    have hc : ignorePorts.contains port = true := List.elem_iff.mpr hmem
    unfold ShouldForwardPort
    rw [if_pos hc]

/-- C7 witness: the equivalence instantiated at port 8080 with no
configuration. -/
theorem shouldForwardPort_correct_witness :
    (8080 ∈ ([] : List Nat) → ShouldForwardPort 8080 [] [] = false) ∧
    specPortPolicy 8080 [] [] :=
  ⟨(shouldForwardPort_correct 8080 [] []).2.1,
   (shouldForwardPort_correct 8080 [] []).1.mp (by decide)⟩

/-! ## Supervisor-side one-shot reconcile — `Monitor.Reconcile`
(pkg/daemon, the remote "VM-side reconciliation")

The network I/O around the computation (the `LIST` RPC, issuing the
`FORWARD`/`UNFORWARD` requests) is peeled off; the reconcile *plan* — which
ports to forward and which to unforward — is the embedded computation.
Go's intermediate `map[int]bool` sets are kept as lists; membership is
what the claims are about. -/

/-- One entry of the daemon's `LIST` response as `Monitor.Reconcile`
consumes it (`protocol.ForwardInfo`): the remote port and the connection
identifier. -/
structure ForwardListEntry where
  remotePort : Nat
  connectionInfo : String
  deriving DecidableEq, Repr

/-- One listening socket as returned by `monitor.GetListeningPorts`
(a `monitor.Port`). -/
structure ListenPort where
  port : Nat
  protocol : String
  bindAddr : String
  deriving DecidableEq, Repr

/-- Embedding of the plan computed by `Monitor.Reconcile`:
`daemonForwards` are the daemon-tracked ports whose `ConnectionInfo`
matches this session; `toForward` are the policy-passing listening ports
not already tracked; `toUnforward` are the tracked ports not listening
at all (`allVMListening`, not the policy-passing subset). -/
def reconcilePlan (sessionID : String) (forwards : List ForwardListEntry)
    (vmPorts : List ListenPort) (portRanges : List PortRange) (ignorePorts : List Nat) :
    List Nat × List Nat :=
  let daemonForwards :=
    (forwards.filter (fun f => decide (f.connectionInfo = sessionID))).map
      (fun f => f.remotePort)
  let allVMListening := vmPorts.map (fun p => p.port)
  let vmListeningInRange :=
    (vmPorts.filter (fun p => ShouldForwardPort p.port portRanges ignorePorts)).map
      (fun p => p.port)
  let toForward := vmListeningInRange.filter (fun p => !daemonForwards.contains p)
  let toUnforward := daemonForwards.filter (fun p => !allVMListening.contains p)
  (toForward, toUnforward)

/-- C5: the reconcile plan forwards exactly the policy-passing listening
ports the daemon does not track for this session, and unforwards exactly
the daemon-tracked ports that are not listening at all — so a
still-listening tracked port is never unforwarded, even when it falls
outside the configured ranges. -/
theorem reconcilePlan_correct (sessionID : String) (forwards : List ForwardListEntry)
    (vmPorts : List ListenPort) (portRanges : List PortRange) (ignorePorts : List Nat)
    (p : Nat) :
    (p ∈ (reconcilePlan sessionID forwards vmPorts portRanges ignorePorts).1 ↔
      ((∃ lp ∈ vmPorts, lp.port = p ∧
          ShouldForwardPort p portRanges ignorePorts = true) ∧
        ¬∃ f ∈ forwards, f.connectionInfo = sessionID ∧ f.remotePort = p)) ∧
    (p ∈ (reconcilePlan sessionID forwards vmPorts portRanges ignorePorts).2 ↔
      ((∃ f ∈ forwards, f.connectionInfo = sessionID ∧ f.remotePort = p) ∧
        ¬∃ lp ∈ vmPorts, lp.port = p)) ∧
    ((∃ lp ∈ vmPorts, lp.port = p) →
      p ∉ (reconcilePlan sessionID forwards vmPorts portRanges ignorePorts).2) := by
  have hcont : ∀ (l : List Nat) (a : Nat), ((!l.contains a) = true) ↔ a ∉ l := by
    intro l a
    simp [List.elem_iff]
  have h1 : p ∈ (reconcilePlan sessionID forwards vmPorts portRanges ignorePorts).1 ↔
      ((∃ lp ∈ vmPorts, lp.port = p ∧
          ShouldForwardPort p portRanges ignorePorts = true) ∧
        ¬∃ f ∈ forwards, f.connectionInfo = sessionID ∧ f.remotePort = p) := by
    simp only [reconcilePlan, List.mem_filter, List.mem_map, hcont,
      decide_eq_true_eq]
    constructor
    · rintro ⟨⟨lp, ⟨hlp, hpass⟩, rfl⟩, hnone⟩
      refine ⟨⟨lp, hlp, rfl, hpass⟩, ?_⟩
      rintro ⟨f, hf, hconn, hport⟩
      exact hnone ⟨f, ⟨hf, hconn⟩, hport⟩
    · rintro ⟨⟨lp, hlp, rfl, hpass⟩, hnone⟩
      refine ⟨⟨lp, ⟨hlp, hpass⟩, rfl⟩, ?_⟩
      rintro ⟨f, ⟨hf, hconn⟩, hport⟩
      exact hnone ⟨f, hf, hconn, hport⟩
  have h2 : p ∈ (reconcilePlan sessionID forwards vmPorts portRanges ignorePorts).2 ↔
      ((∃ f ∈ forwards, f.connectionInfo = sessionID ∧ f.remotePort = p) ∧
        ¬∃ lp ∈ vmPorts, lp.port = p) := by
    simp only [reconcilePlan, List.mem_filter, List.mem_map, hcont,
      decide_eq_true_eq]
    constructor
    · rintro ⟨⟨f, ⟨hf, hconn⟩, rfl⟩, hnone⟩
      refine ⟨⟨f, hf, hconn, rfl⟩, ?_⟩
      rintro ⟨lp, hlp, hport⟩
      exact hnone ⟨lp, hlp, hport⟩
    · rintro ⟨⟨f, hf, hconn, rfl⟩, hnone⟩
      refine ⟨⟨f, ⟨hf, hconn⟩, rfl⟩, ?_⟩
      rintro ⟨lp, hlp, hport⟩
      exact hnone ⟨lp, hlp, hport⟩
  refine ⟨h1, h2, ?_⟩
  intro hlisten hmem
  exact absurd hlisten (h2.mp hmem).2

/-- C5 witness: a still-listening tracked port 12345, outside the
configured range `{3000, 9999}`, is preserved by the plan. -/
theorem reconcilePlan_correct_witness :
    12345 ∉ (reconcilePlan "vm" [⟨12345, "vm"⟩] [⟨12345, "tcp", "127.0.0.1"⟩]
      [⟨3000, 9999⟩] []).2 :=
  (reconcilePlan_correct "vm" [⟨12345, "vm"⟩] [⟨12345, "tcp", "127.0.0.1"⟩]
      [⟨3000, 9999⟩] [] 12345).2.2 ⟨⟨12345, "tcp", "127.0.0.1"⟩, by decide, rfl⟩

/-! ## Decimal rendering of ports (Go `fmt.Sprintf("%d", port)`) -/

/-- The character for one decimal digit. -/
def digitChar (d : Nat) : Char :=
  match d with
  | 0 => '0' | 1 => '1' | 2 => '2' | 3 => '3' | 4 => '4'
  | 5 => '5' | 6 => '6' | 7 => '7' | 8 => '8' | _ => '9'

/-- Fuel-indexed digit production (`fuel > n` suffices, see
`decimalRepr_unfold`); structural recursion keeps it kernel-reducible. -/
def decimalReprAux (fuel n : Nat) : List Char :=
  match fuel with
  | 0 => []
  | fuel + 1 =>
    if n < 10 then [digitChar n]
    else decimalReprAux fuel (n / 10) ++ [digitChar (n % 10)]

/-- The decimal digits of `n`, most significant first; models
`fmt.Sprintf("%d", n)` for the non-negative ints the sources format. -/
def decimalRepr (n : Nat) : List Char := decimalReprAux (n + 1) n

/-- Reads a digit string back; used only to prove `decimalRepr` injective. -/
def digitsVal (cs : List Char) : Nat :=
  cs.foldl (fun a c => 10 * a + (c.toNat - 48)) 0

/-! ## Forward manager — pkg/forwarder/forwarder.go

The `Forwarder` state is its registry `map[string]*Forward`; the ssh
subprocesses it spawns are returned as a list of `SshCmd`, and each
subprocess's exit status enters as a `Bool` parameter (`true` = exit 0).
A returned `Bool` models `err == nil`. -/

/-- `forwarder.Forward`. `createdAt` is a wall-clock instant. -/
structure Forward where
  remotePort : Nat
  localPort : Nat
  host : String
  socketPath : String
  connectionInfo : String
  createdAt : Nat
  deriving DecidableEq, Repr

/-- One ssh subprocess invocation the forwarder can spawn. -/
inductive SshCmd where
  /-- `ssh -O forward -L localPort:host:remotePort connectionInfo`. -/
  | forwardL (localPort : Nat) (host : String) (remotePort : Nat) (conn : String)
  /-- `ssh -O cancel -L localPort:host:remotePort connectionInfo`. -/
  | cancelL (localPort : Nat) (host : String) (remotePort : Nat) (conn : String)
  /-- `ssh -O forward connectionInfo` with no `-L`: re-applies the
  statically configured forwards. -/
  | forwardAll (conn : String)
  deriving DecidableEq, Repr

/-- The forwarder's registry, `forwards map[string]*Forward`. -/
abbrev Registry := List (String × Forward)

/-- The registry key: `fmt.Sprintf("%s:%s:%d", connectionInfo, host,
remotePort)` as built by `AddForward`, `RegisterExistingForward` and
`RemoveForward`. -/
def makeKey (connectionInfo host : String) (remotePort : Nat) : String :=
  connectionInfo ++ ":" ++ host ++ ":" ++ String.mk (decimalRepr remotePort)

/-- Default-normalization shared by the forwarder's operations:
`host == "" → "localhost"`. -/
def normHost (host : String) : String :=
  if host = "" then "localhost" else host

/-- Embedding of `Forwarder.AddForward`: normalize defaults, return
success untouched if the key is registered, otherwise run
`ssh -O forward -L …` (its exit status is the parameter `sshOk`) and
insert into the registry only on success.  Result:
(new registry, `err == nil`, spawned subprocesses). -/
def addForward (reg : Registry) (sshOk : Bool) (now : Nat)
    (socketPath connectionInfo : String) (remotePort localPort0 : Nat) (host0 : String) :
    Registry × Bool × List SshCmd :=
  let host := normHost host0
  let localPort := if localPort0 = 0 then remotePort else localPort0
  let key := makeKey connectionInfo host remotePort
  match lookup? reg key with
  | some _ => (reg, true, [])
  | none =>
    let cmd := SshCmd.forwardL localPort host remotePort connectionInfo
    if sshOk then
      (insertKV reg key
        ⟨remotePort, localPort, host, socketPath, connectionInfo, now⟩, true, [cmd])
    else
      (reg, false, [cmd])

/-- Embedding of `Forwarder.RegisterExistingForward`: like `addForward`
but never spawns ssh. -/
def registerExistingForward (reg : Registry) (now : Nat)
    (socketPath connectionInfo : String) (remotePort localPort0 : Nat) (host0 : String) :
    Registry × Bool :=
  let host := normHost host0
  let localPort := if localPort0 = 0 then remotePort else localPort0
  let key := makeKey connectionInfo host remotePort
  match lookup? reg key with
  | some _ => (reg, true)
  | none =>
    (insertKV reg key
      ⟨remotePort, localPort, host, socketPath, connectionInfo, now⟩, true)

/-- Embedding of `Forwarder.RemoveForward`: look up (error when absent),
run `ssh -O cancel -L …` (exit status `cancelOk`, logged and ignored),
delete the entry regardless, then run `ssh -O forward conn` with no `-L`
(exit status `reestablishOk`, logged and ignored), and return success. -/
def removeForward (reg : Registry) (cancelOk reestablishOk : Bool)
    (connectionInfo : String) (remotePort : Nat) (host0 : String) :
    Registry × Bool × List SshCmd :=
  let host := normHost host0
  let key := makeKey connectionInfo host remotePort
  match lookup? reg key with
  | none => (reg, false, [])
  | some fwd =>
    (eraseKV reg key, true,
      [SshCmd.cancelL fwd.localPort host remotePort connectionInfo,
       SshCmd.forwardAll connectionInfo])

/-! ### Forward-manager theorems -/

/-- When the identity's key is already registered, `addForward` returns
success, leaves the registry unchanged and spawns nothing. -/
theorem addForward_of_present (reg : Registry) (sshOk : Bool) (now : Nat)
    (sp conn : String) (rp lp : Nat) (host : String) (fwd : Forward)
    (hf : lookup? reg (makeKey conn (normHost host) rp) = some fwd) :
    addForward reg sshOk now sp conn rp lp host = (reg, true, []) := by
  simp [addForward, hf]

/-- C1: once a FORWARD for an identity has succeeded, repeating the
FORWARD with the same identity returns success, leaves the registry
unchanged, and spawns no second `ssh -O forward` subprocess — whatever
the repeat's environment (`sshOk2`, timestamps, socket path) would be. -/
theorem addForward_idempotent (reg : Registry) (sshOk1 sshOk2 : Bool) (now1 now2 : Nat)
    (sp1 sp2 conn : String) (rp lp : Nat) (host : String)
    (hfirst : (addForward reg sshOk1 now1 sp1 conn rp lp host).2.1 = true) :
    addForward (addForward reg sshOk1 now1 sp1 conn rp lp host).1
        sshOk2 now2 sp2 conn rp lp host
      = ((addForward reg sshOk1 now1 sp1 conn rp lp host).1, true, []) := by
  cases hl : lookup? reg (makeKey conn (normHost host) rp) with
  | some f =>
    rw [addForward_of_present reg sshOk1 now1 sp1 conn rp lp host f hl]
    exact addForward_of_present reg sshOk2 now2 sp2 conn rp lp host f hl
  | none =>
    cases sshOk1 with
    | false => simp [addForward, hl] at hfirst
    | true =>
      have hres : (addForward reg true now1 sp1 conn rp lp host).1 =
          insertKV reg (makeKey conn (normHost host) rp)
            ⟨rp, if lp = 0 then rp else lp, normHost host, sp1, conn, now1⟩ := by
        simp [addForward, hl]
      rw [hres]
      exact addForward_of_present _ sshOk2 now2 sp2 conn rp lp host _
        (lookup?_insert_self _ _ _)

/-- C1 witness: forward port 8080 on connection `myhost` into an empty
registry (ssh succeeds), then repeat it with a failing ssh environment:
the repeat succeeds, changes nothing and runs nothing. -/
theorem addForward_idempotent_witness :
    addForward (addForward [] true 1 "/tmp/ctl" "myhost" 8080 0 "").1
        false 2 "/tmp/ctl2" "myhost" 8080 0 ""
      = ((addForward [] true 1 "/tmp/ctl" "myhost" 8080 0 "").1, true, []) :=
  addForward_idempotent [] true false 1 2 "/tmp/ctl" "/tmp/ctl2" "myhost" 8080 0 ""
    (by decide)

/-- C2: `removeForward` on a registered identity always succeeds: the
entry is deleted whether or not the cancel subprocess succeeded, the
cancel is immediately followed by `ssh -O forward conn` with no `-L`
(re-applying the statically configured forwards), and a failing
re-establishment does not surface as an error. -/
theorem removeForward_spec (reg : Registry) (cancelOk reestablishOk : Bool)
    (conn : String) (rp : Nat) (host : String) (fwd : Forward)
    (hf : lookup? reg (makeKey conn (normHost host) rp) = some fwd) :
    removeForward reg cancelOk reestablishOk conn rp host =
      (eraseKV reg (makeKey conn (normHost host) rp), true,
        [SshCmd.cancelL fwd.localPort (normHost host) rp conn,
         SshCmd.forwardAll conn]) := by
  simp [removeForward, hf]

/-- C2 witness: removing a registered forward with both the cancel and
the re-establish subprocesses failing still succeeds, deletes the entry
and issues the re-establish command right after the cancel. -/
theorem removeForward_spec_witness :
    removeForward [(makeKey "myhost" "localhost" 8080,
        ⟨8080, 8080, "localhost", "/tmp/ctl", "myhost", 1⟩)]
      false false "myhost" 8080 "" =
      ([], true,
        [SshCmd.cancelL 8080 "localhost" 8080 "myhost",
         SshCmd.forwardAll "myhost"]) := by
  have h := removeForward_spec
    [(makeKey "myhost" "localhost" 8080, ⟨8080, 8080, "localhost", "/tmp/ctl", "myhost", 1⟩)]
    false false "myhost" 8080 "" ⟨8080, 8080, "localhost", "/tmp/ctl", "myhost", 1⟩
    (by decide)
  rw [h]
  decide

/-! ### Registry-key identity (C10) -/

/-- Any fuel above `n` produces the same digits. -/
theorem decimalReprAux_congr : ∀ fuel₁ fuel₂ n : Nat, n < fuel₁ → n < fuel₂ →
    decimalReprAux fuel₁ n = decimalReprAux fuel₂ n := by
  intro fuel₁
  induction fuel₁ with
  | zero => omega
  | succ f ih =>
    intro fuel₂ n h1 h2
    cases fuel₂ with
    | zero => omega
    | succ f₂ =>
      by_cases h : n < 10
      · simp [decimalReprAux, h]
      · have hdiv : n / 10 < n := Nat.div_lt_self (by omega) (by omega)
        simp only [decimalReprAux, if_neg h]
        rw [ih f₂ (n / 10) (by omega) (by omega)]

/-- The recursion `decimalRepr` implements. -/
theorem decimalRepr_unfold (n : Nat) :
    decimalRepr n =
      if n < 10 then [digitChar n]
      else decimalRepr (n / 10) ++ [digitChar (n % 10)] := by
  have hsucc : ∀ f m : Nat, decimalReprAux (f + 1) m =
      if m < 10 then [digitChar m] else decimalReprAux f (m / 10) ++ [digitChar (m % 10)] :=
    fun _ _ => rfl
  by_cases h : n < 10
  · rw [decimalRepr, hsucc, if_pos h, if_pos h]
  · have hdiv : n / 10 < n := Nat.div_lt_self (by omega) (by omega)
    rw [decimalRepr, hsucc, if_neg h, if_neg h, decimalRepr,
      decimalReprAux_congr n (n / 10 + 1) (n / 10) (by omega) (by omega)]

/-- Evaluating a digit string goes digit by digit. -/
theorem digitsVal_append_digit (cs : List Char) (c : Char) :
    digitsVal (cs ++ [c]) = 10 * digitsVal cs + (c.toNat - 48) := by
  simp [digitsVal, List.foldl_append]

theorem digitsVal_decimalRepr (n : Nat) : digitsVal (decimalRepr n) = n := by
  induction n using Nat.strong_induction_on with
  | _ n ih =>
    by_cases h : n < 10
    · rw [decimalRepr_unfold, if_pos h]
      interval_cases n <;> decide
    · rw [decimalRepr_unfold, if_neg h, digitsVal_append_digit,
        ih (n / 10) (Nat.div_lt_self (by omega) (by omega))]
      have hd : (digitChar (n % 10)).toNat - 48 = n % 10 := by
        have : n % 10 < 10 := Nat.mod_lt n (by omega)
        interval_cases hm : (n % 10) <;> decide
      omega

theorem decimalRepr_injective {n m : Nat} (h : decimalRepr n = decimalRepr m) : n = m := by
  have := digitsVal_decimalRepr n
  rw [h, digitsVal_decimalRepr] at this
  omega

theorem colon_not_mem_decimalRepr (n : Nat) : ':' ∉ decimalRepr n := by
  induction n using Nat.strong_induction_on with
  | _ n ih =>
    by_cases h : n < 10
    · rw [decimalRepr_unfold, if_pos h]
      interval_cases n <;> decide
    · rw [decimalRepr_unfold, if_neg h]
      intro hmem
      rcases List.mem_append.1 hmem with hmem | hmem
      · exact ih (n / 10) (Nat.div_lt_self (by omega) (by omega)) hmem
      · have : n % 10 < 10 := Nat.mod_lt n (by omega)
        revert hmem
        interval_cases hm : (n % 10) <;> decide

/-- Splitting at the first un-escaped separator: two colon-free prefixes
followed by `':'` must agree. -/
theorem colon_split {a : List Char} : ∀ {b r r' : List Char}, ':' ∉ a → ':' ∉ b →
    a ++ ':' :: r = b ++ ':' :: r' → a = b ∧ r = r' := by
  induction a with
  | nil =>
    intro b r r' _ hb h
    cases b with
    | nil => simpa using h
    | cons x xs =>
      simp only [List.nil_append, List.cons_append, List.cons.injEq] at h
      exact absurd (h.1 ▸ List.mem_cons_self x xs) hb
  | cons x xs ih =>
    intro b r r' ha hb h
    cases b with
    | nil =>
      simp only [List.cons_append, List.nil_append, List.cons.injEq] at h
      exact absurd (h.1 ▸ List.mem_cons_self x xs) ha
    | cons y ys =>
      simp only [List.cons_append, List.cons.injEq] at h
      obtain ⟨rfl, h2⟩ := h
      have := ih (fun hm => ha (List.mem_cons_of_mem _ hm))
        (fun hm => hb (List.mem_cons_of_mem _ hm)) h2
      exact ⟨by rw [this.1], this.2⟩

/-- C10 counterexample: the identities `("a:b", "c", 8080)` and
`("a", "b:c", 8080)` differ but build the same registry key, and
removing the first deletes the Forward stored for the second (the
operation even reports success). -/
theorem registryKey_collision :
    makeKey "a:b" "c" 8080 = makeKey "a" "b:c" 8080 ∧
    (("a:b", "c") ≠ ("a", "b:c")) ∧
    removeForward [(makeKey "a" "b:c" 8080, ⟨8080, 8080, "b:c", "/tmp/ctl", "a", 0⟩)]
        true true "a:b" 8080 "c"
      = ([], true, [SshCmd.cancelL 8080 "c" 8080 "a:b", SshCmd.forwardAll "a:b"]) := by
  refine ⟨by decide, by decide, ?_⟩
  have h := removeForward_spec
    [(makeKey "a" "b:c" 8080, ⟨8080, 8080, "b:c", "/tmp/ctl", "a", 0⟩)]
    true true "a:b" 8080 "c" ⟨8080, 8080, "b:c", "/tmp/ctl", "a", 0⟩ (by decide)
  rw [h]
  decide

/-- C10 amended: for connection identifiers and hosts that contain no
`':'`, distinct identity triples always build distinct registry keys, so
an operation on one identity never touches another's entry. -/
theorem makeKey_injective_of_colon_free (c h c' h' : String) (p p' : Nat)
    (hc : ':' ∉ c.data) (hc' : ':' ∉ c'.data) (hh : ':' ∉ h.data) (hh' : ':' ∉ h'.data)
    (hne : (c, h, p) ≠ (c', h', p')) :
    makeKey c h p ≠ makeKey c' h' p' := by
  intro heq
  apply hne
  have hdata : c.data ++ ':' :: (h.data ++ ':' :: decimalRepr p) =
      c'.data ++ ':' :: (h'.data ++ ':' :: decimalRepr p') := by
    have : (makeKey c h p).data = (makeKey c' h' p').data := by rw [heq]
    simpa [makeKey] using this
  obtain ⟨hcc, hrest⟩ := colon_split hc hc' hdata
  obtain ⟨hhh, hpp⟩ := colon_split hh hh' hrest
  have : c = c' := String.ext hcc
  have : h = h' := String.ext hhh
  have : p = p' := decimalRepr_injective hpp
  simp_all

/-- C10 amended witness: two concrete colon-free identities that differ
only in the host map to different keys. -/
theorem makeKey_injective_witness : makeKey "vm" "localhost" 80 ≠ makeKey "vm" "db" 80 :=
  makeKey_injective_of_colon_free "vm" "localhost" "vm" "db" 80 80
    (by decide) (by decide) (by decide) (by decide) (by decide)

/-! ## Session monitor — pkg/monitor/session.go

The supervisor's state machine.  One `Step` is one execution of a
handler under the monitor's mutex: either the event handler applied to
one `PortEvent` (with the environment's contributions — the daemon's
RPC response for `requestForward`, and the fresh `GetListeningPorts`
snapshot `handlePortClosed` re-queries, `none` modelling a query error)
or one tick of `cleanupPendingRemovals`.  The RPCs the monitor sends
are the emitted `Act`ions.

Go keys both maps by `fmt.Sprintf("%d", port)`; decimal rendering is
injective (`decimalRepr_injective`), so the maps are kept keyed by the
port itself. -/

/-- Event type of a `monitor.PortEvent`. -/
inductive EvKind where
  | opened
  | closed
  deriving DecidableEq, Repr

/-- What one supervisor step is. -/
inductive StepKind where
  /-- `handlePortEvent` on one event: its kind, port and bind address,
  the daemon's response to a `FORWARD` sent while handling it
  (`daemonOk`), and the `GetListeningPorts` snapshot a `CLOSED` handler
  re-queries (`none` = the query returned an error). -/
  | ev (etype : EvKind) (port : Nat) (bindAddr : String) (daemonOk : Bool)
      (listening : Option (List Nat))
  /-- One `cleanupPendingRemovals` tick. -/
  | cleanup
  deriving DecidableEq, Repr

/-- A step together with the wall-clock instant it runs at. -/
structure Step where
  time : Nat
  kind : StepKind
  deriving DecidableEq, Repr

/-- An RPC the supervisor issues to the daemon. -/
inductive Act where
  | forwardReq (port : Nat)
  | unforwardReq (port : Nat)
  deriving DecidableEq, Repr

/-- `monitor.ForwardInfo` (the fields the claims touch; PID, process
name and request id are bookkeeping the handlers never branch on). -/
structure ForwardInfo where
  port : Nat
  createdAt : Nat
  deriving DecidableEq, Repr

/-- The `SessionMonitor`'s mutable state: `activeForwards` and
`pendingRemovals` (the latter maps a port to the instant it was marked). -/
structure MonSt where
  activeForwards : List (Nat × ForwardInfo)
  pendingRemovals : List (Nat × Nat)
  deriving DecidableEq, Repr

/-- The state `NewSessionMonitor` starts from. -/
def initMonSt : MonSt := ⟨[], []⟩

/-- Embedding of `requestForward`: send the `FORWARD` RPC; track the
forward only when the daemon answered success. -/
def requestForward (st : MonSt) (now port : Nat) (daemonOk : Bool) : MonSt × List Act :=
  if daemonOk then
    ({ st with activeForwards := insertKV st.activeForwards port ⟨port, now⟩ },
      [Act.forwardReq port])
  else
    (st, [Act.forwardReq port])

/-- Embedding of `handlePortOpened`: a pending removal is cancelled and
the forward re-requested (idempotent on the daemon); an already-tracked
port is ignored; otherwise the forward is requested. -/
def handlePortOpened (st : MonSt) (now port : Nat) (daemonOk : Bool) : MonSt × List Act :=
  match lookup? st.pendingRemovals port with
  | some _ =>
    requestForward { st with pendingRemovals := eraseKV st.pendingRemovals port }
      now port daemonOk
  | none =>
    match lookup? st.activeForwards port with
    | some _ => (st, [])
    | none => requestForward st now port daemonOk

/-- Embedding of `handlePortClosed`: untracked ports are ignored; the
listening set is re-queried and, when the port still listens, the stale
`CLOSED` is dropped; otherwise the port is marked pending-removal at
`now`.  (On a query error the code proceeds to mark.) -/
def handlePortClosed (st : MonSt) (now port : Nat) (listening : Option (List Nat)) :
    MonSt :=
  match lookup? st.activeForwards port with
  | none => st
  | some _ =>
    match listening with
    | some ports =>
      if ports.contains port then st
      else { st with pendingRemovals := insertKV st.pendingRemovals port now }
    | none => { st with pendingRemovals := insertKV st.pendingRemovals port now }

/-- The loop body of `cleanupPendingRemovals`, iterating over a snapshot
of the `pendingRemovals` entries: an entry older than the grace period
is removed, and when the port is still tracked the `UNFORWARD` RPC is
issued and the forward dropped. -/
def cleanupGo (grace now : Nat) : List (Nat × Nat) → MonSt → MonSt × List Act
  | [], st => (st, [])
  | (p, t) :: rest, st =>
    if grace ≤ now - t then
      let fired : MonSt × List Act :=
        match lookup? st.activeForwards p with
        | some _ =>
          (⟨eraseKV st.activeForwards p, eraseKV st.pendingRemovals p⟩,
            [Act.unforwardReq p])
        | none => ({ st with pendingRemovals := eraseKV st.pendingRemovals p }, [])
      let next := cleanupGo grace now rest fired.1
      (next.1, fired.2 ++ next.2)
    else
      cleanupGo grace now rest st

/-- Embedding of `cleanupPendingRemovals` (one 5-second tick). -/
def cleanupPendingRemovals (grace now : Nat) (st : MonSt) : MonSt × List Act :=
  cleanupGo grace now st.pendingRemovals st

/-- Embedding of `IsLocalAddr` (internal/monitor procnet helper):
wildcard and loopback binds only. -/
def IsLocalAddr (addr : String) : Bool :=
  addr == "0.0.0.0" || addr == "127.0.0.1" || addr == "::" || addr == "::1"

/-- Modelled from the spec: the bind-address-aware policy filter
`ShouldForwardPort(port, bindAddr, portRanges, ignorePorts)`.  The
repository's monitor tests call this four-argument form (rejecting
Tailscale/LAN binds) but its defining file is not among the source
files; only the port-based three-argument `ShouldForwardPort` is.  Per
§4.7.1, `forward?(port, bind_addr) := bind_addr ∈ {0.0.0.0, 127.0.0.1,
::, ::1} ∧ port ∉ ignore_ports ∧ (ranges empty → port ≥ 1024; else some
range contains port)`; the embedded source `IsLocalAddr` and
`ShouldForwardPort` supply the two halves. -/
def ShouldForwardPortBind (port : Nat) (bindAddr : String) (portRanges : List PortRange)
    (ignorePorts : List Nat) : Bool :=
  IsLocalAddr bindAddr && ShouldForwardPort port portRanges ignorePorts

/-- One supervisor step (`handlePortEvent` with its policy gate, or a
cleanup tick), parameterized by the policy predicate: the source
session.go instantiates `policy` with the port-only
`ShouldForwardPort`; the spec-modelled supervisor instantiates it with
`ShouldForwardPortBind`. -/
def monStep (policy : Nat → String → Bool) (grace : Nat) (st : MonSt) (s : Step) :
    MonSt × List Act :=
  match s.kind with
  | .cleanup => cleanupPendingRemovals grace s.time st
  | .ev etype port bind daemonOk listening =>
    if policy port bind then
      match etype with
      | .opened => handlePortOpened st s.time port daemonOk
      | .closed => (handlePortClosed st s.time port listening, [])
    else
      (st, [])

/-- The policy of the source session.go: port-only. -/
def sessionPolicy (portRanges : List PortRange) (ignorePorts : List Nat) :
    Nat → String → Bool :=
  fun port _ => ShouldForwardPort port portRanges ignorePorts

/-- Folding the monitor over a step sequence (final state). -/
def runSt (policy : Nat → String → Bool) (grace : Nat) (st : MonSt) (steps : List Step) :
    MonSt :=
  steps.foldl (fun st s => (monStep policy grace st s).1) st

/-- `s` is an `OPENED` event for port `p`. -/
def isOpenedFor (s : Step) (p : Nat) : Prop :=
  ∃ bind daemonOk listening, s.kind = StepKind.ev EvKind.opened p bind daemonOk listening

/-- `s` is a `CLOSED` event for port `p` whose listening re-query did
not report `p` (either the snapshot lacked `p`, or the query errored). -/
def closedVerified (s : Step) (p : Nat) : Prop :=
  ∃ bind daemonOk listening, s.kind = StepKind.ev EvKind.closed p bind daemonOk listening ∧
    (listening = none ∨ ∃ l, listening = some l ∧ p ∉ l)

/-- The inductive invariant behind the grace-period guarantees: every
pending-removal mark `(p, t)` passed the policy, was made by a verified
`CLOSED` step at instant `t`, and no `OPENED` for `p` processed so far
is more recent than `t`. -/
def MonInv (portRanges : List PortRange) (ignorePorts : List Nat) (pre : List Step)
    (st : MonSt) : Prop :=
  ∀ p t, (p, t) ∈ st.pendingRemovals →
    ShouldForwardPort p portRanges ignorePorts = true ∧
    (∃ s ∈ pre, s.time = t ∧ closedVerified s p) ∧
    (∀ s ∈ pre, isOpenedFor s p → s.time ≤ t)

/-! ### Session-monitor lemmas -/

/-- Cleanup only ever unforwards entries that sat in the iterated
pending snapshot past their grace period. -/
theorem cleanupGo_act_sound (grace now : Nat) :
    ∀ (l : List (Nat × Nat)) (st : MonSt) (p : Nat),
      Act.unforwardReq p ∈ (cleanupGo grace now l st).2 →
      ∃ t, (p, t) ∈ l ∧ grace ≤ now - t := by
  intro l
  induction l with
  | nil =>
    intro st p h
    simp [cleanupGo] at h
  | cons pt rest ih =>
    intro st p h
    obtain ⟨q, t⟩ := pt
    by_cases hg : grace ≤ now - t
    · simp only [cleanupGo, if_pos hg] at h
      cases hl : lookup? st.activeForwards q with
      | some info =>
        rw [hl] at h
        simp only [List.cons_append, List.nil_append, List.mem_cons] at h
        rcases h with h | h
        · injection h with h'
          subst h'
          exact ⟨t, List.mem_cons_self _ _, hg⟩
        · obtain ⟨t', ht', hgt⟩ := ih _ p h
          exact ⟨t', List.mem_cons_of_mem _ ht', hgt⟩
      | none =>
        rw [hl] at h
        simp only [List.nil_append] at h
        obtain ⟨t', ht', hgt⟩ := ih _ p h
        exact ⟨t', List.mem_cons_of_mem _ ht', hgt⟩
    · simp only [cleanupGo, if_neg hg] at h
      obtain ⟨t', ht', hgt⟩ := ih _ p h
      exact ⟨t', List.mem_cons_of_mem _ ht', hgt⟩

/-- Cleanup never issues a `FORWARD`. -/
theorem cleanupGo_no_forward (grace now : Nat) :
    ∀ (l : List (Nat × Nat)) (st : MonSt) (p : Nat),
      Act.forwardReq p ∉ (cleanupGo grace now l st).2 := by
  intro l
  induction l with
  | nil =>
    intro st p h
    simp [cleanupGo] at h
  | cons pt rest ih =>
    intro st p h
    obtain ⟨q, t⟩ := pt
    by_cases hg : grace ≤ now - t
    · simp only [cleanupGo, if_pos hg] at h
      cases hl : lookup? st.activeForwards q with
      | some info =>
        rw [hl] at h
        simp only [List.cons_append, List.nil_append, List.mem_cons] at h
        rcases h with h | h
        · exact Act.noConfusion h
        · exact ih _ p h
      | none =>
        rw [hl] at h
        simp only [List.nil_append] at h
        exact ih _ p h
    · simp only [cleanupGo, if_neg hg] at h
      exact ih _ p h

/-- Cleanup only shrinks the pending map. -/
theorem cleanupGo_pending_subset (grace now : Nat) :
    ∀ (l : List (Nat × Nat)) (st : MonSt) (p t : Nat),
      (p, t) ∈ (cleanupGo grace now l st).1.pendingRemovals →
      (p, t) ∈ st.pendingRemovals := by
  intro l
  induction l with
  | nil =>
    intro st p t h
    simpa [cleanupGo] using h
  | cons pt rest ih =>
    intro st p t h
    obtain ⟨q, tq⟩ := pt
    by_cases hg : grace ≤ now - tq
    · simp only [cleanupGo, if_pos hg] at h
      cases hl : lookup? st.activeForwards q with
      | some info =>
        rw [hl] at h
        have := ih _ p t h
        exact ((mem_eraseKV _ _ _ _).1 this).1
      | none =>
        rw [hl] at h
        have := ih _ p t h
        exact ((mem_eraseKV _ _ _ _).1 this).1
    · simp only [cleanupGo, if_neg hg] at h
      exact ih _ p t h

/-- An opened-event handler leaves in the pending map only entries of
other ports that were already there. -/
theorem handlePortOpened_pending (st : MonSt) (now port : Nat) (daemonOk : Bool)
    (p t : Nat) (h : (p, t) ∈ (handlePortOpened st now port daemonOk).1.pendingRemovals) :
    (p, t) ∈ st.pendingRemovals ∧ p ≠ port := by
  unfold handlePortOpened at h
  cases hl : lookup? st.pendingRemovals port with
  | some v =>
    rw [hl] at h
    have hmem : (p, t) ∈ eraseKV st.pendingRemovals port := by
      unfold requestForward at h
      cases daemonOk <;> simpa using h
    exact (mem_eraseKV _ _ _ _).1 hmem
  | none =>
    rw [hl] at h
    have hnot : ∀ t', (port, t') ∉ st.pendingRemovals := (lookup?_eq_none_iff _ _).1 hl
    cases ha : lookup? st.activeForwards port with
    | some info =>
      rw [ha] at h
      exact ⟨h, fun hp => hnot t (hp ▸ h)⟩
    | none =>
      rw [ha] at h
      have hmem : (p, t) ∈ st.pendingRemovals := by
        unfold requestForward at h
        cases daemonOk <;> simpa using h
      exact ⟨hmem, fun hp => hnot t (hp ▸ hmem)⟩

/-- The opened-event handler only ever sends a `FORWARD` for the
event's own port. -/
theorem handlePortOpened_acts (st : MonSt) (now port : Nat) (daemonOk : Bool) (a : Act)
    (h : a ∈ (handlePortOpened st now port daemonOk).2) : a = Act.forwardReq port := by
  unfold handlePortOpened at h
  cases hl : lookup? st.pendingRemovals port with
  | some v =>
    rw [hl] at h
    unfold requestForward at h
    cases daemonOk <;> simpa using h
  | none =>
    rw [hl] at h
    cases ha : lookup? st.activeForwards port with
    | some info =>
      rw [ha] at h
      simp at h
    | none =>
      rw [ha] at h
      unfold requestForward at h
      cases daemonOk <;> simpa using h

/-- A step that is not an `OPENED` event for `p` cannot witness
`isOpenedFor`. -/
theorem not_isOpenedFor_cleanup (T : Nat) (p : Nat) :
    ¬ isOpenedFor ⟨T, StepKind.cleanup⟩ p := by
  rintro ⟨bind, dok, lst, h⟩
  exact StepKind.noConfusion h

/-- One source-session step preserves the invariant, provided the step
runs no earlier than everything already processed. -/
theorem monStep_preserves_inv (portRanges : List PortRange) (ignorePorts : List Nat)
    (grace : Nat) (pre : List Step) (st : MonSt) (s : Step)
    (hinv : MonInv portRanges ignorePorts pre st)
    (hmono : ∀ s' ∈ pre, s'.time ≤ s.time) :
    MonInv portRanges ignorePorts (pre ++ [s])
      ((monStep (sessionPolicy portRanges ignorePorts) grace st s).1) := by
  intro p t hmem
  have carry : (p, t) ∈ st.pendingRemovals → (¬ isOpenedFor s p) →
      ShouldForwardPort p portRanges ignorePorts = true ∧
      (∃ s' ∈ pre ++ [s], s'.time = t ∧ closedVerified s' p) ∧
      (∀ s' ∈ pre ++ [s], isOpenedFor s' p → s'.time ≤ t) := by
    intro hold hnop
    obtain ⟨hpol, ⟨s', hs', ht, hcv⟩, hop⟩ := hinv p t hold
    refine ⟨hpol, ⟨s', List.mem_append_left _ hs', ht, hcv⟩, ?_⟩
    intro s'' hs'' hopen
    rcases List.mem_append.1 hs'' with h | h
    · exact hop s'' h hopen
    · rw [List.mem_singleton.1 h] at hopen
      exact absurd hopen hnop
  obtain ⟨T0, k⟩ := s
  cases k with
  | cleanup =>
    have hold := cleanupGo_pending_subset grace T0 st.pendingRemovals st p t hmem
    exact carry hold (not_isOpenedFor_cleanup T0 p)
  | ev etype port bind daemonOk listening =>
    by_cases hp : sessionPolicy portRanges ignorePorts port bind = true
    · cases etype with
      | opened =>
        have hmem' : (p, t) ∈ (handlePortOpened st T0 port daemonOk).1.pendingRemovals := by
          simpa [monStep, hp] using hmem
        obtain ⟨hold, hne⟩ := handlePortOpened_pending st T0 port daemonOk p t hmem'
        refine carry hold ?_
        rintro ⟨bind', dok', lst', hkind⟩
        injection hkind with h1 h2
        exact hne h2.symm
      | closed =>
        have hmem' : (p, t) ∈ (handlePortClosed st T0 port listening).pendingRemovals := by
          simpa [monStep, hp] using hmem
        have hnotopen : ¬ isOpenedFor ⟨T0, StepKind.ev EvKind.closed port bind daemonOk
            listening⟩ p := by
          rintro ⟨bind', dok', lst', hkind⟩
          exact EvKind.noConfusion (by injection hkind)
        unfold handlePortClosed at hmem'
        cases ha : lookup? st.activeForwards port with
        | none =>
          rw [ha] at hmem'
          exact carry hmem' hnotopen
        | some info =>
          rw [ha] at hmem'
          have hfresh : (listening = none ∨ ∃ l, listening = some l ∧ port ∉ l) →
              (p, t) ∈ insertKV st.pendingRemovals port T0 →
              ShouldForwardPort p portRanges ignorePorts = true ∧
              (∃ s' ∈ pre ++ [(⟨T0, StepKind.ev EvKind.closed port bind daemonOk
                  listening⟩ : Step)],
                s'.time = t ∧ closedVerified s' p) ∧
              (∀ s' ∈ pre ++ [(⟨T0, StepKind.ev EvKind.closed port bind daemonOk
                  listening⟩ : Step)],
                isOpenedFor s' p → s'.time ≤ t) := by
            intro hcond hmem''
            rcases (mem_insertKV _ _ _ _ _).1 hmem'' with ⟨rfl, rfl⟩ | ⟨hold, hne⟩
            · refine ⟨hp, ⟨_, List.mem_append_right _ (List.mem_singleton_self _), rfl,
                ⟨bind, daemonOk, listening, rfl, hcond⟩⟩, ?_⟩
              intro s'' hs'' hopen
              rcases List.mem_append.1 hs'' with h | h
              · exact hmono s'' h
              · rw [List.mem_singleton.1 h] at hopen
                exact absurd hopen hnotopen
            · exact carry hold hnotopen
          cases listening with
          | none =>
            have hmem2 : (p, t) ∈ insertKV st.pendingRemovals port T0 := hmem'
            exact hfresh (Or.inl rfl) hmem2
          | some l =>
            have hifmem : (p, t) ∈ (if l.contains port then st else
                { st with pendingRemovals := insertKV st.pendingRemovals port T0
                }).pendingRemovals := hmem'
            by_cases hc : l.contains port = true
            · rw [if_pos hc] at hifmem
              exact carry hifmem hnotopen
            · rw [if_neg hc] at hifmem
              exact hfresh (Or.inr ⟨l, rfl, fun hm => hc (List.elem_iff.2 hm)⟩) hifmem
    · have hmem' : (p, t) ∈ st.pendingRemovals := by
        simpa [monStep, hp] using hmem
      obtain ⟨hpol, hexists, hop⟩ := hinv p t hmem'
      refine carry hmem' ?_
      rintro ⟨bind', dok', lst', hkind⟩
      injection hkind with h1 h2 h3
      rw [h2, h3] at hp
      exact hp hpol

/-- Running the source-session machine from an invariant-satisfying
state over time-monotone steps keeps the invariant. -/
theorem runSt_inv (portRanges : List PortRange) (ignorePorts : List Nat) (grace : Nat) :
    ∀ (steps pre : List Step) (st : MonSt),
      MonInv portRanges ignorePorts pre st →
      List.Pairwise (fun a b => a.time ≤ b.time) (pre ++ steps) →
      MonInv portRanges ignorePorts (pre ++ steps)
        (runSt (sessionPolicy portRanges ignorePorts) grace st steps) := by
  intro steps
  induction steps with
  | nil =>
    intro pre st hinv _
    simpa [runSt] using hinv
  | cons s rest ih =>
    intro pre st hinv hmono
    have hmono' : ∀ s' ∈ pre, s'.time ≤ s.time := by
      intro s' hs'
      exact (List.pairwise_append.1 hmono).2.2 s' hs' s (List.mem_cons_self s rest)
    have hstep := monStep_preserves_inv portRanges ignorePorts grace pre st s hinv hmono'
    have hassoc : pre ++ s :: rest = (pre ++ [s]) ++ rest := by simp
    have := ih (pre ++ [s]) ((monStep (sessionPolicy portRanges ignorePorts) grace st s).1)
      hstep (by rw [← hassoc]; exact hmono)
    rw [hassoc]
    simpa [runSt] using this

/-! ### The session-monitor claims -/

/-- C6: when `handlePortClosed` runs for a tracked forwarded port, it
first consults a fresh listening snapshot; if the port still listens the
event is dropped — the state (registry and pending map alike) is
untouched — otherwise the port is marked pending-removal at the current
instant; and a `CLOSED` step never emits any RPC. -/
theorem handlePortClosed_spec (st : MonSt) (now port : Nat) (l : List Nat)
    (info : ForwardInfo) (htracked : lookup? st.activeForwards port = some info) :
    (port ∈ l → handlePortClosed st now port (some l) = st) ∧
    (port ∉ l → handlePortClosed st now port (some l) =
      { st with pendingRemovals := insertKV st.pendingRemovals port now }) ∧
    ∀ (policy : Nat → String → Bool) (grace : Nat) (bind : String) (daemonOk : Bool)
      (listening : Option (List Nat)),
      (monStep policy grace st
        ⟨now, StepKind.ev EvKind.closed port bind daemonOk listening⟩).2 = [] := by
  refine ⟨?_, ?_, ?_⟩
  · intro hmem
    unfold handlePortClosed
    rw [htracked]
    show (if l.contains port then st
      else { st with pendingRemovals := insertKV st.pendingRemovals port now }) = st
    rw [if_pos (List.elem_iff.2 hmem)]
  · intro hmem
    unfold handlePortClosed
    rw [htracked]
    have hc : ¬ l.contains port = true := fun hc => hmem (List.elem_iff.1 hc)
    show (if l.contains port then st
      else { st with pendingRemovals := insertKV st.pendingRemovals port now }) =
      { st with pendingRemovals := insertKV st.pendingRemovals port now }
    rw [if_neg hc]
  · intro policy grace bind daemonOk listening
    unfold monStep
    by_cases hp : policy port bind = true
    · simp [hp]
    · simp [hp]

/-- C6 witness: with port 3000 tracked and the re-queried snapshot still
containing 3000 (hot-reload race), the `CLOSED` is dropped wholesale;
with 3000 absent, it is marked pending at the current instant. -/
theorem handlePortClosed_spec_witness :
    (handlePortClosed ⟨[(3000, ⟨3000, 0⟩)], []⟩ 7 3000 (some [3000, 8080]) =
      ⟨[(3000, ⟨3000, 0⟩)], []⟩) ∧
    (handlePortClosed ⟨[(3000, ⟨3000, 0⟩)], []⟩ 7 3000 (some [8080]) =
      ⟨[(3000, ⟨3000, 0⟩)], [(3000, 7)]⟩) :=
  ⟨(handlePortClosed_spec ⟨[(3000, ⟨3000, 0⟩)], []⟩ 7 3000 [3000, 8080] ⟨3000, 0⟩
      (by decide)).1 (by decide),
   by
    have h := (handlePortClosed_spec ⟨[(3000, ⟨3000, 0⟩)], []⟩ 7 3000 [8080] ⟨3000, 0⟩
      (by decide)).2.1 (by decide)
    rw [h]
    decide⟩

/-- C4 (spec-modelled policy): a supervisor step only issues a `FORWARD`
for port `p` when it is an `OPENED` event for `p` whose
(port, bind-address) pair passes `ShouldForwardPortBind`; in particular
any event whose bind address is non-local (e.g. a Tailscale address)
leaves the state untouched and issues nothing. -/
theorem specPolicy_soundness (portRanges : List PortRange) (ignorePorts : List Nat)
    (grace : Nat) (st : MonSt) (s : Step) (p : Nat) :
    (Act.forwardReq p ∈
        (monStep (fun q b => ShouldForwardPortBind q b portRanges ignorePorts)
          grace st s).2 →
      ∃ bind daemonOk listening,
        s.kind = StepKind.ev EvKind.opened p bind daemonOk listening ∧
        ShouldForwardPortBind p bind portRanges ignorePorts = true) ∧
    ∀ (T port : Nat) (etype : EvKind) (bind : String) (daemonOk : Bool)
      (listening : Option (List Nat)),
      IsLocalAddr bind = false →
      monStep (fun q b => ShouldForwardPortBind q b portRanges ignorePorts) grace st
        ⟨T, StepKind.ev etype port bind daemonOk listening⟩ = (st, []) := by
  constructor
  · intro hact
    cases hk : s.kind with
    | cleanup =>
      rw [show (monStep (fun q b => ShouldForwardPortBind q b portRanges ignorePorts)
          grace st s).2 = (cleanupPendingRemovals grace s.time st).2 by rw [monStep, hk]]
        at hact
      exact absurd hact
        (cleanupGo_no_forward grace s.time st.pendingRemovals st p)
    | ev etype port bind daemonOk listening =>
      rw [show (monStep (fun q b => ShouldForwardPortBind q b portRanges ignorePorts)
          grace st s).2 =
          (if ShouldForwardPortBind port bind portRanges ignorePorts then
            match etype with
            | EvKind.opened => (handlePortOpened st s.time port daemonOk).2
            | EvKind.closed => []
          else []) by
        rw [monStep, hk]
        by_cases hp : ShouldForwardPortBind port bind portRanges ignorePorts
        · cases etype <;> simp [hp]
        · simp [hp]] at hact
      by_cases hp : ShouldForwardPortBind port bind portRanges ignorePorts = true
      · rw [if_pos hp] at hact
        cases etype with
        | opened =>
          have := handlePortOpened_acts st s.time port daemonOk _ hact
          injection this with hq
          subst hq
          exact ⟨bind, daemonOk, listening, rfl, hp⟩
        | closed => simp at hact
      · rw [if_neg (by simpa using hp)] at hact
        simp at hact
  · intro T port etype bind daemonOk listening hbind
    unfold monStep
    have : ShouldForwardPortBind port bind portRanges ignorePorts = false := by
      unfold ShouldForwardPortBind
      rw [hbind]
      rfl
    simp [this]

/-- C3: a cleanup tick at instant `T` issues `UNFORWARD` for port `p`
only when `p` carries a pending mark `(p, t)` made by a verified
`CLOSED` event at `t` with `t + grace ≤ T`, and every `OPENED` event for
`p` processed before lies at least one grace period before `T` — in
particular no `UNFORWARD` lands within `grace` of `p`'s most recent
`OPENED`. -/
theorem monitor_grace_safety (portRanges : List PortRange) (ignorePorts : List Nat)
    (grace : Nat) (pre : List Step) (T p : Nat)
    (hmono : List.Pairwise (fun a b => a.time ≤ b.time) (pre ++ [⟨T, StepKind.cleanup⟩]))
    (hact : Act.unforwardReq p ∈
      (monStep (sessionPolicy portRanges ignorePorts) grace
        (runSt (sessionPolicy portRanges ignorePorts) grace initMonSt pre)
        ⟨T, StepKind.cleanup⟩).2) :
    ∃ t, (p, t) ∈ (runSt (sessionPolicy portRanges ignorePorts) grace initMonSt
        pre).pendingRemovals ∧
      t + grace ≤ T ∧
      (∃ s ∈ pre, s.time = t ∧ closedVerified s p) ∧
      ∀ s ∈ pre, isOpenedFor s p → s.time + grace ≤ T := by
  have hpre : List.Pairwise (fun a b : Step => a.time ≤ b.time) pre :=
    (List.pairwise_append.1 hmono).1
  have hbound : ∀ s ∈ pre, s.time ≤ T := by
    intro s hs
    exact (List.pairwise_append.1 hmono).2.2 s hs ⟨T, StepKind.cleanup⟩
      (List.mem_singleton_self _)
  have hinv : MonInv portRanges ignorePorts pre
      (runSt (sessionPolicy portRanges ignorePorts) grace initMonSt pre) := by
    have h0 : MonInv portRanges ignorePorts [] initMonSt := by
      intro p t hmem
      simp [initMonSt] at hmem
    simpa using runSt_inv portRanges ignorePorts grace pre [] initMonSt h0 (by simpa using hpre)
  rw [show (monStep (sessionPolicy portRanges ignorePorts) grace
      (runSt (sessionPolicy portRanges ignorePorts) grace initMonSt pre)
      ⟨T, StepKind.cleanup⟩).2 =
      (cleanupPendingRemovals grace T
        (runSt (sessionPolicy portRanges ignorePorts) grace initMonSt pre)).2 from rfl]
    at hact
  obtain ⟨t, hmem, hgrace⟩ := cleanupGo_act_sound grace T _ _ p hact
  obtain ⟨hpol, ⟨s', hs', ht, hcv⟩, hop⟩ := hinv p t hmem
  have htT : t ≤ T := ht ▸ hbound s' hs'
  refine ⟨t, hmem, by omega, ⟨s', hs', ht, hcv⟩, ?_⟩
  intro s hs hopen
  have := hop s hs hopen
  omega

/-- C3 witness: grace 2, port 3000 opened at 0, closed-and-verified at
1; the cleanup tick at 3 unforwards it, and the guarantee instantiates. -/
theorem monitor_grace_safety_witness :
    ∃ t, (3000, t) ∈ (runSt (sessionPolicy [] []) 2 initMonSt
        [⟨0, StepKind.ev EvKind.opened 3000 "0.0.0.0" true none⟩,
         ⟨1, StepKind.ev EvKind.closed 3000 "0.0.0.0" true (some [])⟩]).pendingRemovals ∧
      t + 2 ≤ 3 ∧
      (∃ s ∈ [⟨0, StepKind.ev EvKind.opened 3000 "0.0.0.0" true none⟩,
         (⟨1, StepKind.ev EvKind.closed 3000 "0.0.0.0" true (some [])⟩ : Step)],
        s.time = t ∧ closedVerified s 3000) ∧
      ∀ s ∈ [⟨0, StepKind.ev EvKind.opened 3000 "0.0.0.0" true none⟩,
         (⟨1, StepKind.ev EvKind.closed 3000 "0.0.0.0" true (some [])⟩ : Step)],
        isOpenedFor s 3000 → s.time + 2 ≤ 3 :=
  monitor_grace_safety [] [] 2
    [⟨0, StepKind.ev EvKind.opened 3000 "0.0.0.0" true none⟩,
     ⟨1, StepKind.ev EvKind.closed 3000 "0.0.0.0" true (some [])⟩] 3 3000
    (by decide) (by decide)

/-! ## `/proc/net/tcp{,6}` hex address decoding — `parseHexAddr`

`parseHexAddr(hexStr, protocol)` hex-decodes the kernel's address field
and renders it through `net.IP.String()`.  Bytes are `Nat`s below 256.
The kernel-side encoder (8 uppercase hex digits for IPv4, 32 for IPv6,
little-endian per 32-bit word) is written from the spec's words, since
only the decoder is in the source. -/

/-- One hex digit's value; model of encoding/hex `fromHexChar`
(`0-9`, `a-f`, `A-F`). -/
def hexDigitVal (c : Char) : Option Nat :=
  if '0' ≤ c ∧ c ≤ '9' then some (c.toNat - 48)
  else if 'a' ≤ c ∧ c ≤ 'f' then some (c.toNat - 87)
  else if 'A' ≤ c ∧ c ≤ 'F' then some (c.toNat - 55)
  else none

/-- Model of Go `hex.DecodeString`: two hex digits per byte; odd length
or an invalid digit is an error. -/
def hexDecode : List Char → Option (List Nat)
  | [] => some []
  | [_] => none
  | a :: b :: rest =>
    match hexDigitVal a, hexDigitVal b, hexDecode rest with
    | some x, some y, some bs => some ((16 * x + y) :: bs)
    | _, _, _ => none

/-- Dotted-quad rendering: `net.IP.String()` on a 4-byte (or v4-mapped)
address. -/
def ipv4String (a b c d : Nat) : String :=
  String.mk (decimalRepr a) ++ "." ++ String.mk (decimalRepr b) ++ "." ++
    String.mk (decimalRepr c) ++ "." ++ String.mk (decimalRepr d)

/-- Lowercase hex digit, as `net`'s `appendHex` prints groups. -/
def hexDigitChar (d : Nat) : Char :=
  match d with
  | 0 => '0' | 1 => '1' | 2 => '2' | 3 => '3' | 4 => '4'
  | 5 => '5' | 6 => '6' | 7 => '7' | 8 => '8' | 9 => '9'
  | 10 => 'a' | 11 => 'b' | 12 => 'c' | 13 => 'd' | 14 => 'e' | _ => 'f'

/-- Fuel-indexed minimal lowercase hex digits (no leading zeros; `0`
prints "0"), mirroring `appendHex`. -/
def hexReprAux (fuel n : Nat) : List Char :=
  match fuel with
  | 0 => []
  | fuel + 1 =>
    if n < 16 then [hexDigitChar n]
    else hexReprAux fuel (n / 16) ++ [hexDigitChar (n % 16)]

/-- One 16-bit group in lowercase hex. -/
def hexRepr (n : Nat) : String := String.mk (hexReprAux (n + 1) n)

/-- Length of the leading zero run of a group list. -/
def zeroRunLen : List Nat → Nat
  | [] => 0
  | g :: rest => if g = 0 then zeroRunLen rest + 1 else 0

/-- Go `net.IP.String()`'s zero-run selection over the 8 groups: the
earliest strictly-longest run of zero groups, kept only when at least
two groups long.  Returns group indices `(e0, e1)` with the run
`[e0, e1)`. -/
def bestZeroRun (gs : List Nat) : Option (Nat × Nat) :=
  let lens := (List.range gs.length).map (fun i => (i, zeroRunLen (gs.drop i)))
  let best := lens.foldl (fun acc il => if il.2 > acc.2 then il else acc) (0, 0)
  if 2 ≤ best.2 then some (best.1, best.1 + best.2) else none

/-- Hex groups joined with `':'`. -/
def joinGroups (gs : List Nat) : String :=
  String.intercalate ":" (gs.map hexRepr)

/-- Model of `net.IP.String()` on 16 bytes: the v4-mapped prefix
(10 zero bytes then `0xff 0xff`) prints as a dotted quad; otherwise
hex groups with the best zero run compressed to `"::"`. -/
def ipv6String (bs : List Nat) : String :=
  match bs with
  | [b0, b1, b2, b3, b4, b5, b6, b7, b8, b9, b10, b11, b12, b13, b14, b15] =>
    if b0 = 0 ∧ b1 = 0 ∧ b2 = 0 ∧ b3 = 0 ∧ b4 = 0 ∧ b5 = 0 ∧ b6 = 0 ∧ b7 = 0 ∧
        b8 = 0 ∧ b9 = 0 ∧ b10 = 255 ∧ b11 = 255 then
      ipv4String b12 b13 b14 b15
    else
      let gs := [256 * b0 + b1, 256 * b2 + b3, 256 * b4 + b5, 256 * b6 + b7,
                 256 * b8 + b9, 256 * b10 + b11, 256 * b12 + b13, 256 * b14 + b15]
      match bestZeroRun gs with
      | none => joinGroups gs
      | some (e0, e1) => joinGroups (gs.take e0) ++ "::" ++ joinGroups (gs.drop e1)
  | _ => "?"

/-- The per-32-bit-word byte reversal `parseHexAddr` applies to the
decoded IPv6 bytes (`ip[off] = b[off+3]` …); on a 4-byte list it is the
plain reversal `net.IPv4(b[3], b[2], b[1], b[0])` uses. -/
def wordSwap4 : List Nat → List Nat
  | a :: b :: c :: d :: rest => d :: c :: b :: a :: wordSwap4 rest
  | other => other

/-- Embedding of `parseHexAddr(hexStr, protocol)`: decode the hex; for
`"tcp"` with 4 bytes render `net.IPv4(b[3], b[2], b[1], b[0])`; for
`"tcp6"` with 16 bytes render the per-word swapped bytes as IPv6;
anything else yields `""`. -/
def parseHexAddr (hexStr : String) (protocol : String) : String :=
  match hexDecode hexStr.data with
  | none => ""
  | some b =>
    if protocol = "tcp" ∧ b.length = 4 then
      match b with
      | [b0, b1, b2, b3] => ipv4String b3 b2 b1 b0
      | _ => ""
    else if protocol = "tcp6" ∧ b.length = 16 then
      ipv6String (wordSwap4 b)
    else ""

/-- Uppercase hex digit, as the kernel prints `/proc/net/tcp{,6}`. -/
def hexDigitCharUpper (d : Nat) : Char :=
  match d with
  | 0 => '0' | 1 => '1' | 2 => '2' | 3 => '3' | 4 => '4'
  | 5 => '5' | 6 => '6' | 7 => '7' | 8 => '8' | 9 => '9'
  | 10 => 'A' | 11 => 'B' | 12 => 'C' | 13 => 'D' | 14 => 'E' | _ => 'F'

/-- Two uppercase hex digits of one byte. -/
def hexByteChars (b : Nat) : List Char :=
  [hexDigitCharUpper (b / 16), hexDigitCharUpper (b % 16)]

/-- The kernel's hex encoding of an address, written from the spec:
"Hex address decoding is little-endian per 32-bit word for both
families" — the address bytes are reversed per 32-bit word and printed
as uppercase hex (8 digits for IPv4, 32 for IPv6). -/
def kernelHexEncode (addrBytes : List Nat) : String :=
  String.mk (((wordSwap4 addrBytes).map hexByteChars).join)

/-! ### Hex round-trip theorems -/

theorem hexDigitVal_upper (d : Nat) (hd : d < 16) :
    hexDigitVal (hexDigitCharUpper d) = some d := by
  interval_cases d <;> decide

theorem hexDecode_cons (a b : Char) (rest : List Char) (x y : Nat) (bs : List Nat)
    (ha : hexDigitVal a = some x) (hb : hexDigitVal b = some y)
    (hr : hexDecode rest = some bs) :
    hexDecode (a :: b :: rest) = some ((16 * x + y) :: bs) := by
  rw [hexDecode, ha, hb, hr]

/-- Hex-decoding inverts the byte-wise uppercase hex encoding. -/
theorem hexDecode_encode : ∀ bs : List Nat, (∀ b ∈ bs, b < 256) →
    hexDecode ((bs.map hexByteChars).join) = some bs := by
  intro bs
  induction bs with
  | nil =>
    intro _
    rfl
  | cons b rest ih =>
    intro hb
    have hb1 : b < 256 := hb b (List.mem_cons_self _ _)
    have ih' := ih (fun x hx => hb x (List.mem_cons_of_mem _ hx))
    have hjoin : ((b :: rest).map hexByteChars).join =
        hexDigitCharUpper (b / 16) :: hexDigitCharUpper (b % 16) ::
          (rest.map hexByteChars).join := rfl
    rw [hjoin, hexDecode_cons _ _ _ (b / 16) (b % 16) rest
      (hexDigitVal_upper _ (by omega))
      (hexDigitVal_upper _ (Nat.mod_lt _ (by omega))) ih']
    rw [Nat.div_add_mod]

theorem wordSwap4_involutive : (l : List Nat) → wordSwap4 (wordSwap4 l) = l
  | [] => rfl
  | [_] => rfl
  | [_, _] => rfl
  | [_, _, _] => rfl
  | a :: b :: c :: d :: rest => by
    rw [show wordSwap4 (a :: b :: c :: d :: rest) =
        d :: c :: b :: a :: wordSwap4 rest from rfl]
    rw [show wordSwap4 (d :: c :: b :: a :: wordSwap4 rest) =
        a :: b :: c :: d :: wordSwap4 (wordSwap4 rest) from rfl]
    rw [wordSwap4_involutive rest]

theorem wordSwap4_length : (l : List Nat) → (wordSwap4 l).length = l.length
  | [] => rfl
  | [_] => rfl
  | [_, _] => rfl
  | [_, _, _] => rfl
  | a :: b :: c :: d :: rest => by
    rw [show wordSwap4 (a :: b :: c :: d :: rest) =
        d :: c :: b :: a :: wordSwap4 rest from rfl]
    simp [wordSwap4_length rest]

theorem wordSwap4_mem {x : Nat} : (l : List Nat) → x ∈ wordSwap4 l → x ∈ l
  | [], h => h
  | [_], h => h
  | [_, _], h => h
  | [_, _, _], h => h
  | a :: b :: c :: d :: rest, h => by
    rw [show wordSwap4 (a :: b :: c :: d :: rest) =
        d :: c :: b :: a :: wordSwap4 rest from rfl] at h
    simp only [List.mem_cons] at h ⊢
    rcases h with h | h | h | h | h
    · exact Or.inr (Or.inr (Or.inr (Or.inl h)))
    · exact Or.inr (Or.inr (Or.inl h))
    · exact Or.inr (Or.inl h)
    · exact Or.inl h
    · exact Or.inr (Or.inr (Or.inr (Or.inr (wordSwap4_mem rest h))))

/-- C8: `parseHexAddr` inverts the kernel's little-endian-per-word hex
encoding: every IPv4 address decodes back to its dotted quad and every
IPv6 address to its RFC-5952 rendering; in particular `"0100007F"`
decodes to `"127.0.0.1"`, `"00000000"` to `"0.0.0.0"`, and
`"00000000000000000000000001000000"` to `"::1"`. -/
theorem parseHexAddr_roundtrip (a0 a1 a2 a3 : Nat) (a16 : List Nat)
    (h0 : a0 < 256) (h1 : a1 < 256) (h2 : a2 < 256) (h3 : a3 < 256)
    (h16 : a16.length = 16) (hb16 : ∀ b ∈ a16, b < 256) :
    parseHexAddr (kernelHexEncode [a0, a1, a2, a3]) "tcp" = ipv4String a0 a1 a2 a3 ∧
    parseHexAddr (kernelHexEncode a16) "tcp6" = ipv6String a16 ∧
    parseHexAddr "0100007F" "tcp" = "127.0.0.1" ∧
    parseHexAddr "00000000" "tcp" = "0.0.0.0" ∧
    parseHexAddr "00000000000000000000000001000000" "tcp6" = "::1" := by
  refine ⟨?_, ?_, by decide, by decide, by decide⟩
  · have hdec : hexDecode (kernelHexEncode [a0, a1, a2, a3]).data =
        some [a3, a2, a1, a0] := by
      rw [show (kernelHexEncode [a0, a1, a2, a3]).data =
          (([a3, a2, a1, a0].map hexByteChars).join) from rfl]
      refine hexDecode_encode [a3, a2, a1, a0] ?_
      intro b hb
      simp only [List.mem_cons, List.not_mem_nil, or_false] at hb
      rcases hb with rfl | rfl | rfl | rfl <;> omega
    simp only [parseHexAddr, hdec]
    simp
  · have hdec : hexDecode (kernelHexEncode a16).data = some (wordSwap4 a16) := by
      rw [show (kernelHexEncode a16).data = (((wordSwap4 a16).map hexByteChars).join)
        from rfl]
      exact hexDecode_encode (wordSwap4 a16) (fun b hb => hb16 b (wordSwap4_mem a16 hb))
    have hlen : (wordSwap4 a16).length = 16 := by rw [wordSwap4_length, h16]
    simp only [parseHexAddr, hdec]
    simp [hlen, wordSwap4_involutive a16]

/-- C8 witness: `127.0.0.1` and `::1` round-trip through their kernel
encodings. -/
theorem parseHexAddr_roundtrip_witness :
    parseHexAddr (kernelHexEncode [127, 0, 0, 1]) "tcp" = ipv4String 127 0 0 1 ∧
    parseHexAddr (kernelHexEncode [0, 0, 0, 0, 0, 0, 0, 0, 0, 0, 0, 0, 0, 0, 0, 1])
      "tcp6" = ipv6String [0, 0, 0, 0, 0, 0, 0, 0, 0, 0, 0, 0, 0, 0, 0, 1] :=
  ⟨(parseHexAddr_roundtrip 127 0 0 1 [0, 0, 0, 0, 0, 0, 0, 0, 0, 0, 0, 0, 0, 0, 0, 1]
      (by decide) (by decide) (by decide) (by decide) (by decide) (by decide)).1,
   (parseHexAddr_roundtrip 127 0 0 1 [0, 0, 0, 0, 0, 0, 0, 0, 0, 0, 0, 0, 0, 0, 0, 1]
      (by decide) (by decide) (by decide) (by decide) (by decide) (by decide)).2.1⟩

/-! ## RPC frame handling — pkg/daemon/daemon.go, `handleConnection`

`handleConnection` reads one newline-terminated line (`bufio.Reader.
ReadString('\n')`, no length bound anywhere), hands it to
`protocol.ParseRequest` (a plain `json.Unmarshal` into `Request`), and
either answers `NewErrorResponse("", "invalid request format")` or
dispatches the parsed request to `handleCommand`.  The JSON decoding is
modelled by a fuel-indexed JSON parser (fuel bounds the recursion and
exceeds what any input needs); Go's case-insensitive field-name
fallback and surrogate-pair handling in `\u` escapes are not modelled —
no claim touches them. -/

/-- A JSON value (numeric payloads are syntax-checked, their value is
never consumed by the daemon's dispatch). -/
inductive Json where
  | null
  | bool (b : Bool)
  | num
  | str (s : String)
  | arr (elems : List Json)
  | obj (fields : List (String × Json))

/-- Intermediate results of the combined parser: a value, an object's
members, or an array's elements. -/
inductive JsonPart where
  | v (j : Json)
  | fields (fs : List (String × Json))
  | elems (es : List Json)

/-- Drop JSON whitespace (space, tab, newline, carriage return). -/
def skipWs : List Char → List Char
  | [] => []
  | c :: rest =>
    if c = ' ' ∨ c = '\t' ∨ c = '\n' ∨ c = '\r' then skipWs rest else c :: rest

/-- The character a simple escape `\e` stands for. -/
def escChar (e : Char) : Option Char :=
  if e = '"' then some '"'
  else if e = '\\' then some '\\'
  else if e = '/' then some '/'
  else if e = 'b' then some '\x08'
  else if e = 'f' then some '\x0c'
  else if e = 'n' then some '\n'
  else if e = 'r' then some '\r'
  else if e = 't' then some '\t'
  else none

/-- Parse a string body after the opening quote: returns the decoded
characters and the remainder after the closing quote. -/
def parseStringBody : List Char → Option (List Char × List Char)
  | [] => none
  | c :: rest =>
    if c = '"' then some ([], rest)
    else if c = '\\' then
      match rest with
      | [] => none
      | e :: rest2 =>
        if e = 'u' then
          match rest2 with
          | h1 :: h2 :: h3 :: h4 :: rest3 =>
            match hexDigitVal h1, hexDigitVal h2, hexDigitVal h3, hexDigitVal h4 with
            | some x1, some x2, some x3, some x4 =>
              match parseStringBody rest3 with
              | some (tail, rem) =>
                some (Char.ofNat (((x1 * 16 + x2) * 16 + x3) * 16 + x4) :: tail, rem)
              | none => none
            | _, _, _, _ => none
          | _ => none
        else
          match escChar e with
          | none => none
          | some d =>
            match parseStringBody rest2 with
            | some (tail, rem) => some (d :: tail, rem)
            | none => none
    else if c.toNat < 32 then none
    else
      match parseStringBody rest with
      | some (tail, rem) => some (c :: tail, rem)
      | none => none

/-- Split a leading run of decimal digits. -/
def digitsSplit : List Char → List Char × List Char
  | [] => ([], [])
  | c :: rest =>
    if '0' ≤ c ∧ c ≤ '9' then
      let (d, r) := digitsSplit rest
      (c :: d, r)
    else ([], c :: rest)

/-- The fraction/exponent tail of a JSON number; returns the remainder. -/
def numFracExp (cs : List Char) : Option (List Char) :=
  let afterFrac : Option (List Char) :=
    match cs with
    | '.' :: r =>
      match digitsSplit r with
      | ([], _) => none
      | (_, r2) => some r2
    | _ => some cs
  match afterFrac with
  | none => none
  | some cs3 =>
    match cs3 with
    | e :: r =>
      if e = 'e' ∨ e = 'E' then
        let r2 := match r with
          | '+' :: rr => rr
          | '-' :: rr => rr
          | _ => r
        match digitsSplit r2 with
        | ([], _) => none
        | (_, r3) => some r3
      else some cs3
    | [] => some []

/-- A JSON number starting at `cs` (after an optional minus sign);
returns the remainder. -/
def parseNumberAfter (cs : List Char) : Option (List Char) :=
  let cs1 := match cs with
    | '-' :: r => r
    | _ => cs
  match cs1 with
  | [] => none
  | '0' :: r1 => numFracExp r1
  | c :: r1 =>
    if '1' ≤ c ∧ c ≤ '9' then
      match digitsSplit r1 with
      | (_, r2) => numFracExp r2
    else none

/-- The combined JSON parser: `kind = 0` parses one value, `kind = 1`
an object's members up to `'}'`, `kind = 2` an array's elements up to
`']'`.  Fuel only decreases on nesting/sequencing, so any fuel above
the input length suffices. -/
def parseCore (fuel : Nat) (kind : Nat) (cs : List Char) : Option (JsonPart × List Char) :=
  match fuel with
  | 0 => none
  | fuel + 1 =>
    if kind = 0 then
      match skipWs cs with
      | [] => none
      | c :: rest =>
        if c = '"' then
          match parseStringBody rest with
          | some (chars, rem) => some (JsonPart.v (Json.str (String.mk chars)), rem)
          | none => none
        else if c = '{' then
          match skipWs rest with
          | '}' :: rem => some (JsonPart.v (Json.obj []), rem)
          | _ =>
            match parseCore fuel 1 rest with
            | some (JsonPart.fields fs, rem) => some (JsonPart.v (Json.obj fs), rem)
            | _ => none
        else if c = '[' then
          match skipWs rest with
          | ']' :: rem => some (JsonPart.v (Json.arr []), rem)
          | _ =>
            match parseCore fuel 2 rest with
            | some (JsonPart.elems es, rem) => some (JsonPart.v (Json.arr es), rem)
            | _ => none
        else if c = 't' then
          match rest with
          | 'r' :: 'u' :: 'e' :: rem => some (JsonPart.v (Json.bool true), rem)
          | _ => none
        else if c = 'f' then
          match rest with
          | 'a' :: 'l' :: 's' :: 'e' :: rem => some (JsonPart.v (Json.bool false), rem)
          | _ => none
        else if c = 'n' then
          match rest with
          | 'u' :: 'l' :: 'l' :: rem => some (JsonPart.v Json.null, rem)
          | _ => none
        else if c = '-' ∨ ('0' ≤ c ∧ c ≤ '9') then
          match parseNumberAfter (c :: rest) with
          | some rem => some (JsonPart.v Json.num, rem)
          | none => none
        else none
    else if kind = 1 then
      match skipWs cs with
      | '"' :: rest =>
        match parseStringBody rest with
        | some (keyChars, rem) =>
          match skipWs rem with
          | ':' :: rem2 =>
            match parseCore fuel 0 rem2 with
            | some (JsonPart.v j, rem3) =>
              match skipWs rem3 with
              | ',' :: rem4 =>
                match parseCore fuel 1 rem4 with
                | some (JsonPart.fields fs, rem5) =>
                  some (JsonPart.fields ((String.mk keyChars, j) :: fs), rem5)
                | _ => none
              | '}' :: rem4 => some (JsonPart.fields [(String.mk keyChars, j)], rem4)
              | _ => none
            | _ => none
          | _ => none
        | none => none
      | _ => none
    else
      match parseCore fuel 0 cs with
      | some (JsonPart.v j, rem) =>
        match skipWs rem with
        | ',' :: rem2 =>
          match parseCore fuel 2 rem2 with
          | some (JsonPart.elems es, rem3) => some (JsonPart.elems (j :: es), rem3)
          | _ => none
        | ']' :: rem2 => some (JsonPart.elems [j], rem2)
        | _ => none
      | _ => none

/-- Parse one JSON value with sufficient fuel. -/
def parseJsonValue (cs : List Char) : Option (Json × List Char) :=
  match parseCore (cs.length + 1) 0 cs with
  | some (JsonPart.v j, rem) => some (j, rem)
  | _ => none

/-- The decoded `protocol.Request` (`ID`, `Type`, raw `Payload`;
`payload = none` when the field is absent). -/
structure RequestM where
  id : String
  rtype : String
  payload : Option Json

/-- Last binding of a JSON object key (later duplicates overwrite, as
`json.Unmarshal` does). -/
def fieldLookup (fs : List (String × Json)) (k : String) : Option Json :=
  match fs with
  | [] => none
  | (k', v) :: rest =>
    match fieldLookup rest k with
    | some v' => some v'
    | none => if k' = k then some v else none

/-- A JSON value assigned to a Go `string` field: a string or `null`
(which leaves the zero value); anything else is a decode error. -/
def stringField (jv : Option Json) : Option (Option String) :=
  match jv with
  | none => some none
  | some (Json.str s) => some (some s)
  | some Json.null => some none
  | some _ => none

/-- Model of `protocol.ParseRequest` (`json.Unmarshal` into `Request`):
the frame must be one JSON value followed only by whitespace; `null`
leaves the zero request; an object binds `id`/`type` (strings) and
keeps `payload` raw; any other shape or a mistyped field is an error. -/
def parseRequestModel (line : String) : Option RequestM :=
  match parseJsonValue line.data with
  | none => none
  | some (j, rem) =>
    if skipWs rem = [] then
      match j with
      | Json.null => some ⟨"", "", none⟩
      | Json.obj fs =>
        match stringField (fieldLookup fs "id"), stringField (fieldLookup fs "type") with
        | some idv, some tyv =>
          some ⟨idv.getD "", tyv.getD "", fieldLookup fs "payload"⟩
        | _, _ => none
      | _ => none
    else none

/-- What `handleConnection` does with one frame. -/
inductive ConnOutcome where
  /-- `sendResponse(conn, NewErrorResponse(id, err))`. -/
  | errorResponse (id msg : String)
  /-- the request was dispatched to `handleCommand`. -/
  | handled (req : RequestM)

/-- Embedding of `handleConnection`'s frame path: the line (however
long — `ReadString` has no bound) is parsed; a parse failure is
answered with the one generic error, anything parsed is dispatched. -/
def handleConnection (line : String) : ConnOutcome :=
  match parseRequestModel line with
  | none => ConnOutcome.errorResponse "" "invalid request format"
  | some req => ConnOutcome.handled req

/-- One mebibyte of padding characters. -/
def bigPad : List Char := List.replicate 1048576 'a'

/-- The members following the oversized id value:
`"type":"status","payload":null}` and the frame's newline. -/
def frameTail : List Char :=
  '"' :: 't' :: 'y' :: 'p' :: 'e' :: '"' :: ':' :: '"' :: 's' :: 't' :: 'a' :: 't' ::
    'u' :: 's' :: '"' :: ',' :: '"' :: 'p' :: 'a' :: 'y' :: 'l' :: 'o' :: 'a' :: 'd' ::
    '"' :: ':' :: 'n' :: 'u' :: 'l' :: 'l' :: '}' :: '\n' :: []

/-- A well-formed frame far beyond one MiB:
`{"id":"aaa…a","type":"status","payload":null}` then newline. -/
def bigValidFrame : String :=
  String.mk ('{' :: '"' :: 'i' :: 'd' :: '"' :: ':' :: '"' ::
    (bigPad ++ ('"' :: ',' :: frameTail)))

/-- A junk frame beyond one MiB: `xx…x` then newline. -/
def bigJunkFrame : String := String.mk (List.replicate (1048576 + 1) 'x' ++ ['\n'])

/-! ### Frame-handling theorems -/

theorem skipWs_cons_of_not_ws {c : Char} (rest : List Char)
    (h : ¬(c = ' ' ∨ c = '\t' ∨ c = '\n' ∨ c = '\r')) : skipWs (c :: rest) = c :: rest := by
  rw [skipWs, if_neg h]

/-- The one-step unfolding of `parseStringBody` on a cons cell. -/
theorem parseStringBody_cons (c : Char) (l : List Char) :
    parseStringBody (c :: l) =
      if c = '"' then some ([], l)
      else if c = '\\' then
        match l with
        | [] => none
        | e :: rest2 =>
          if e = 'u' then
            match rest2 with
            | h1 :: h2 :: h3 :: h4 :: rest3 =>
              match hexDigitVal h1, hexDigitVal h2, hexDigitVal h3, hexDigitVal h4 with
              | some x1, some x2, some x3, some x4 =>
                match parseStringBody rest3 with
                | some (tail, rem) =>
                  some (Char.ofNat (((x1 * 16 + x2) * 16 + x3) * 16 + x4) :: tail, rem)
                | none => none
              | _, _, _, _ => none
            | _ => none
          else
            match escChar e with
            | none => none
            | some d =>
              match parseStringBody rest2 with
              | some (tail, rem) => some (d :: tail, rem)
              | none => none
      else if c.toNat < 32 then none
      else
        match parseStringBody l with
        | some (tail, rem) => some (c :: tail, rem)
        | none => none := by
  rw [parseStringBody.eq_def]

/-- Scanning a quote-free, escape-free, control-free prefix of a string
body consumes it up to the closing quote. -/
theorem parseStringBody_plain : ∀ (pre rest : List Char),
    (∀ c ∈ pre, ¬c = '"' ∧ ¬c = '\\' ∧ ¬c.toNat < 32) →
    parseStringBody (pre ++ '"' :: rest) = some (pre, rest) := by
  intro pre
  induction pre with
  | nil =>
    intro rest _
    rw [List.nil_append, parseStringBody_cons, if_pos rfl]
  | cons c cs ih =>
    intro rest h
    have hc := h c (List.mem_cons_self _ _)
    rw [List.cons_append, parseStringBody_cons, if_neg hc.1, if_neg hc.2.1, if_neg hc.2.2,
      ih rest (fun x hx => h x (List.mem_cons_of_mem _ hx))]

/-- A frame of x's of any positive size is answered with the one
generic parse error. -/
theorem handleConnection_junk (n : Nat) :
    handleConnection (String.mk (List.replicate (n + 1) 'x' ++ ['\n'])) =
      ConnOutcome.errorResponse "" "invalid request format" := by
  have hrep : List.replicate (n + 1) 'x' ++ ['\n'] =
      'x' :: (List.replicate n 'x' ++ ['\n']) := by
    simp [List.replicate_succ]
  have hcore : ∀ f : Nat,
      parseCore (f + 1) 0 ('x' :: (List.replicate n 'x' ++ ['\n'])) = none := by
    intro f
    have hskip : skipWs ('x' :: (List.replicate n 'x' ++ ['\n'])) =
        'x' :: (List.replicate n 'x' ++ ['\n']) :=
      skipWs_cons_of_not_ws _ (by decide)
    simp [parseCore, hskip]
  have hlen : ('x' :: (List.replicate n 'x' ++ ['\n'])).length = n + 2 := by
    simp
  show handleConnection (String.mk (List.replicate (n + 1) 'x' ++ ['\n'])) = _
  unfold handleConnection parseRequestModel parseJsonValue
  rw [show (String.mk (List.replicate (n + 1) 'x' ++ ['\n'])).data =
      'x' :: (List.replicate n 'x' ++ ['\n']) by rw [show (String.mk (List.replicate
        (n + 1) 'x' ++ ['\n'])).data = List.replicate (n + 1) 'x' ++ ['\n'] from rfl, hrep]]
  rw [hlen, hcore (n + 2)]

/-- C9 amended: `handleConnection` enforces no frame-size limit and has
no E_PROTOCOL error class: whatever the frame's size, a frame that
parses is dispatched, a frame that does not parse is answered with the
one generic `"invalid request format"` error, and junk frames of every
size get that same generic answer. -/
theorem handleConnection_no_size_limit (line : String) :
    (∀ req, parseRequestModel line = some req →
      handleConnection line = ConnOutcome.handled req) ∧
    (∀ id msg, handleConnection line = ConnOutcome.errorResponse id msg →
      id = "" ∧ msg = "invalid request format") ∧
    (∀ n : Nat, handleConnection (String.mk (List.replicate (n + 1) 'x' ++ ['\n'])) =
      ConnOutcome.errorResponse "" "invalid request format") := by
  refine ⟨?_, ?_, handleConnection_junk⟩
  · intro req h
    unfold handleConnection
    rw [h]
  · intro id msg h
    unfold handleConnection at h
    cases hp : parseRequestModel line with
    | none =>
      rw [hp] at h
      injection h with h1 h2
      exact ⟨h1.symm, h2.symm⟩
    | some req =>
      rw [hp] at h
      exact ConnOutcome.noConfusion h

theorem frameTail_members (g : Nat) :
    parseCore (g + 3) 1 frameTail =
      some (JsonPart.fields [("type", Json.str "status"), ("payload", Json.null)], ['\n']) := by
  have hk1 : parseStringBody ('t' :: 'y' :: 'p' :: 'e' :: '"' :: ':' :: '"' :: 's' :: 't' ::
      'a' :: 't' :: 'u' :: 's' :: '"' :: ',' :: '"' :: 'p' :: 'a' :: 'y' :: 'l' :: 'o' :: 'a' ::
      'd' :: '"' :: ':' :: 'n' :: 'u' :: 'l' :: 'l' :: '}' :: '\n' :: []) =
      some (['t','y','p','e'], ':' :: '"' :: 's' :: 't' :: 'a' :: 't' :: 'u' :: 's' :: '"' ::
        ',' :: '"' :: 'p' :: 'a' :: 'y' :: 'l' :: 'o' :: 'a' :: 'd' :: '"' :: ':' :: 'n' ::
        'u' :: 'l' :: 'l' :: '}' :: '\n' :: []) := rfl
  have hk2 : parseStringBody ('s' :: 't' :: 'a' :: 't' :: 'u' :: 's' :: '"' :: ',' :: '"' ::
      'p' :: 'a' :: 'y' :: 'l' :: 'o' :: 'a' :: 'd' :: '"' :: ':' :: 'n' :: 'u' :: 'l' :: 'l' ::
      '}' :: '\n' :: []) =
      some (['s','t','a','t','u','s'], ',' :: '"' :: 'p' :: 'a' :: 'y' :: 'l' :: 'o' :: 'a' ::
        'd' :: '"' :: ':' :: 'n' :: 'u' :: 'l' :: 'l' :: '}' :: '\n' :: []) := rfl
  have hk3 : parseStringBody ('p' :: 'a' :: 'y' :: 'l' :: 'o' :: 'a' :: 'd' :: '"' :: ':' ::
      'n' :: 'u' :: 'l' :: 'l' :: '}' :: '\n' :: []) =
      some (['p','a','y','l','o','a','d'], ':' :: 'n' :: 'u' :: 'l' :: 'l' :: '}' :: '\n' :: []) := rfl
  rw [show g + 3 = ((g + 1) + 1) + 1 from rfl, frameTail]
  simp only [parseCore]
  simp [skipWs, hk1, hk2, hk3]

theorem quotedValue_parse (g : Nat) (pad rest' : List Char)
    (hpad : ∀ c ∈ pad, ¬c = '"' ∧ ¬c = '\\' ∧ ¬c.toNat < 32) :
    parseCore (g + 1) 0 ('"' :: (pad ++ '"' :: rest')) =
      some (JsonPart.v (Json.str (String.mk pad)), rest') := by
  have hskip : skipWs ('"' :: (pad ++ '"' :: rest')) = '"' :: (pad ++ '"' :: rest') :=
    skipWs_cons_of_not_ws _ (by decide)
  simp only [parseCore]
  rw [hskip]
  dsimp only []
  rw [parseStringBody_plain pad rest' hpad]
  simp

theorem idMember_parse (g : Nat) (pad : List Char)
    (hpad : ∀ c ∈ pad, ¬c = '"' ∧ ¬c = '\\' ∧ ¬c.toNat < 32) :
    parseCore (g + 4) 1 ('"' :: 'i' :: 'd' :: '"' :: ':' :: '"' ::
        (pad ++ '"' :: ',' :: frameTail)) =
      some (JsonPart.fields [("id", Json.str (String.mk pad)),
        ("type", Json.str "status"), ("payload", Json.null)], ['\n']) := by
  have hkid : parseStringBody ('i' :: 'd' :: '"' :: ':' :: '"' ::
      (pad ++ '"' :: ',' :: frameTail)) =
      some (['i', 'd'], ':' :: '"' :: (pad ++ '"' :: ',' :: frameTail)) :=
    parseStringBody_plain ['i', 'd'] _ (by decide)
  have hskip1 : skipWs ('"' :: 'i' :: 'd' :: '"' :: ':' :: '"' ::
      (pad ++ '"' :: ',' :: frameTail)) = '"' :: 'i' :: 'd' :: '"' :: ':' :: '"' ::
      (pad ++ '"' :: ',' :: frameTail) := skipWs_cons_of_not_ws _ (by decide)
  have hskip2 : skipWs (':' :: '"' :: (pad ++ '"' :: ',' :: frameTail)) =
      ':' :: '"' :: (pad ++ '"' :: ',' :: frameTail) := skipWs_cons_of_not_ws _ (by decide)
  have hskip3 : skipWs (',' :: frameTail) = ',' :: frameTail :=
    skipWs_cons_of_not_ws _ (by decide)
  have hval : parseCore (g + 3) 0 ('"' :: (pad ++ '"' :: (',' :: frameTail))) =
      some (JsonPart.v (Json.str (String.mk pad)), ',' :: frameTail) :=
    quotedValue_parse (g + 2) pad (',' :: frameTail) hpad
  rw [show g + 4 = (g + 3) + 1 from rfl]
  conv_lhs => rw [parseCore]
  rw [if_neg (show ¬(1 : Nat) = 0 by decide), if_pos (rfl : (1 : Nat) = 1)]
  rw [hskip1]
  simp only []
  rw [hkid]
  simp only []
  rw [hskip2]
  simp only []
  rw [hval]
  simp only []
  rw [hskip3]
  simp only []
  rw [frameTail_members g]

theorem validObject_parse (g : Nat) (pad : List Char)
    (hpad : ∀ c ∈ pad, ¬c = '"' ∧ ¬c = '\\' ∧ ¬c.toNat < 32) :
    parseCore (g + 5) 0 ('{' :: '"' :: 'i' :: 'd' :: '"' :: ':' :: '"' ::
        (pad ++ '"' :: ',' :: frameTail)) =
      some (JsonPart.v (Json.obj [("id", Json.str (String.mk pad)),
        ("type", Json.str "status"), ("payload", Json.null)]), ['\n']) := by
  have hskip0 : skipWs ('{' :: '"' :: 'i' :: 'd' :: '"' :: ':' :: '"' ::
      (pad ++ '"' :: ',' :: frameTail)) = '{' :: '"' :: 'i' :: 'd' :: '"' :: ':' :: '"' ::
      (pad ++ '"' :: ',' :: frameTail) := skipWs_cons_of_not_ws _ (by decide)
  have hskipr : skipWs ('"' :: 'i' :: 'd' :: '"' :: ':' :: '"' ::
      (pad ++ '"' :: ',' :: frameTail)) = '"' :: 'i' :: 'd' :: '"' :: ':' :: '"' ::
      (pad ++ '"' :: ',' :: frameTail) := skipWs_cons_of_not_ws _ (by decide)
  rw [show g + 5 = (g + 4) + 1 from rfl]
  conv_lhs => rw [parseCore]
  rw [if_pos (rfl : (0 : Nat) = 0)]
  rw [hskip0]
  simp only []
  rw [if_neg (show ¬('{' = '"') by decide), if_true]
  rw [hskipr]
  simp [idMember_parse g pad hpad]

theorem bigPad_ok : ∀ c ∈ bigPad, ¬c = '"' ∧ ¬c = '\\' ∧ ¬c.toNat < 32 := by
  intro c hc
  rw [bigPad] at hc
  rw [List.eq_of_mem_replicate hc]
  decide

theorem validFrame_handled (pad : List Char)
    (hpad : ∀ c ∈ pad, ¬c = '"' ∧ ¬c = '\\' ∧ ¬c.toNat < 32) :
    handleConnection (String.mk ('{' :: '"' :: 'i' :: 'd' :: '"' :: ':' :: '"' ::
        (pad ++ '"' :: ',' :: frameTail))) =
      ConnOutcome.handled ⟨String.mk pad, "status", some Json.null⟩ := by
  have hlen : ('{' :: '"' :: 'i' :: 'd' :: '"' :: ':' :: '"' ::
      (pad ++ '"' :: ',' :: frameTail)).length = pad.length + 41 := by
    simp [frameTail]
  have hcore := validObject_parse (pad.length + 37) pad hpad
  have hdata : (String.mk ('{' :: '"' :: 'i' :: 'd' :: '"' :: ':' :: '"' ::
      (pad ++ '"' :: ',' :: frameTail))).data =
      '{' :: '"' :: 'i' :: 'd' :: '"' :: ':' :: '"' ::
      (pad ++ '"' :: ',' :: frameTail) := rfl
  unfold handleConnection parseRequestModel parseJsonValue
  rw [hdata, hlen]
  rw [show pad.length + 41 + 1 = pad.length + 37 + 5 from by omega]
  rw [hcore]
  simp [skipWs, fieldLookup, stringField]

theorem frame_length (pad : List Char) :
    ('{' :: '"' :: 'i' :: 'd' :: '"' :: ':' :: '"' ::
      (pad ++ '"' :: ',' :: frameTail)).length = pad.length + 41 := by
  simp [frameTail]

/-- C9 counterexample: there is no 1 MiB frame limit and no E_PROTOCOL
rejection. The junk frame of 1048578 bytes (over 1 MiB) is answered with
the same generic "invalid request format" error as any malformed frame,
and the well-formed frame of 1048618 bytes (a status request whose id is
one mebibyte of padding) is parsed and dispatched to a handler rather
than rejected. -/
theorem oversizedFrame_not_rejected :
    1048576 < bigJunkFrame.data.length ∧
    handleConnection bigJunkFrame = ConnOutcome.errorResponse "" "invalid request format" ∧
    1048576 < bigValidFrame.data.length ∧
    handleConnection bigValidFrame =
      ConnOutcome.handled ⟨String.mk bigPad, "status", some Json.null⟩ := by
  refine ⟨?_, handleConnection_junk 1048576, ?_, validFrame_handled bigPad bigPad_ok⟩
  · show 1048576 < (List.replicate (1048576 + 1) 'x' ++ ['\n']).length
    rw [List.length_append, List.length_replicate]
    norm_num
  · show 1048576 < ('{' :: '"' :: 'i' :: 'd' :: '"' :: ':' :: '"' ::
      (bigPad ++ '"' :: ',' :: frameTail)).length
    rw [frame_length bigPad, bigPad, List.length_replicate]
    norm_num

end Bankshot
